import Mathlib

/-! robomaster-tracker: the colour-range parser and the per-frame control cycle

A shallow embedding of `main.go` and proofs of the properties its specification states.

Conventions of the embedding.

* A Go `string` is a Lean `String`, read as its list of characters. The separator `","` and
  every byte `strconv.Atoi` accepts are ASCII, so splitting and parsing by characters agrees
  with Go's byte-wise processing on every UTF-8 string.
* A Go `int` is a Lean `Int` with the 64-bit range checked where the library checks it.
* A finite `float32`/`float64` value is the rational number it denotes (`ℚ`). Operations that
  round are written with an explicit rounding function, see `Rounding`. NaN and the infinities
  are not represented.
* Calls into collaborators (gocv, the chassis module, the PID package, standard output) are
  recorded as a list of `Event`s, in program order; what a collaborator answers is an input of
  the cycle (`Cycle`).
-/

deriving instance DecidableEq for Except

namespace Tracker

/-! ## Standard library: `strings.Split`, `strconv.Atoi`, `strconv.Itoa`, `float64(int)` -/

/-- Go's `strings.Split(s, sep)` for a one-byte separator: the pieces of `s` between the occurrences
of `sep`; a string without `sep` gives the one piece `s` (also when `s` is empty). -/
def Split (s : String) (sep : Char) : List (List Char) :=
  s.toList.splitOn sep

/-- The two errors of package strconv: `ErrSyntax` and `ErrRange`. -/
inductive NumError where
  | ErrSyntax
  | ErrRange
  deriving DecidableEq, Repr

/-- The constant `math.MaxUint64`. -/
def maxUint64 : Nat := 2 ^ 64 - 1

/-- The loop of `strconv.ParseUint(s, 10, 64)` from the accumulator `n`: every byte must be a
decimal digit (anything else is a syntax error; a letter is a digit `>= base`), and the value
must stay within `uint64` (checked before the multiplication and after the addition). -/
def ParseUintLoop : Nat → List Char → Except NumError Nat
  | n, [] => .ok n
  | n, c :: cs =>
    if 48 ≤ c.toNat ∧ c.toNat ≤ 57 then
      if n ≥ maxUint64 / 10 + 1 then .error .ErrRange
      else if n * 10 + (c.toNat - 48) > maxUint64 then .error .ErrRange
      else ParseUintLoop (n * 10 + (c.toNat - 48)) cs
    else .error .ErrSyntax

/-- Go's `strconv.ParseUint(s, 10, 64)`: the empty string is a syntax error. -/
def ParseUint (s : List Char) : Except NumError Nat :=
  match s with
  | [] => .error .ErrSyntax
  | _ => ParseUintLoop 0 s

/-- Go's `strconv.ParseInt(s, 10, 0)` with 64-bit `int`: an optional sign `+` or `-`, then
`ParseUint`; the magnitude must be `< 2^63`, or `<= 2^63` after a minus sign. -/
def ParseInt (s : List Char) : Except NumError Int :=
  match s with
  | [] => .error .ErrSyntax
  | c :: cs =>
    let neg := c = '-'
    let digits := if c = '+' ∨ c = '-' then cs else s
    match ParseUint digits with
    | .error err => .error err
    | .ok un =>
      if ¬ neg ∧ un ≥ 2 ^ 63 then .error .ErrRange
      else if neg ∧ un > 2 ^ 63 then .error .ErrRange
      else .ok (if neg then -(un : Int) else (un : Int))

/-- The length `len(s)` of a string in bytes (UTF-8). -/
def byteLen : List Char → Nat
  | [] => 0
  | c :: cs => c.utf8Size + byteLen cs

/-- The digit loop of the fast path of `strconv.Atoi`: a byte that is not a decimal digit is a
syntax error; fewer than 19 digits cannot overflow, so nothing else is checked. -/
def AtoiLoop : Nat → List Char → Except NumError Nat
  | n, [] => .ok n
  | n, c :: cs =>
    if 48 ≤ c.toNat ∧ c.toNat ≤ 57 then AtoiLoop (n * 10 + (c.toNat - 48)) cs
    else .error .ErrSyntax

/-- Go's `strconv.Atoi(s)` with 64-bit `int`: a string of 1 to 18 bytes takes the fast path (an
optional sign `-` or `+`, which must be followed by something, then `AtoiLoop`); every other
string goes to `ParseInt(s, 10, 0)`. -/
def Atoi (s : List Char) : Except NumError Int :=
  if 0 < byteLen s ∧ byteLen s < 19 then
    match s with
    | [] => .error .ErrSyntax
    | c :: cs =>
      if (c = '-' ∨ c = '+') ∧ byteLen cs < 1 then .error .ErrSyntax
      else
        match AtoiLoop 0 (if c = '-' ∨ c = '+' then cs else s) with
        | .error err => .error err
        | .ok n => .ok (if c = '-' then -(n : Int) else (n : Int))
  else ParseInt s

/-- Go's `strconv.Itoa(i)`: the decimal rendering of `i`, with a leading `-` when negative. -/
def Itoa (i : Int) : List Char :=
  if i < 0 then '-' :: Nat.toDigits 10 i.natAbs else Nat.toDigits 10 i.natAbs

/-- The number of bits needed to write `n` (0 for 0), by halving at most `fuel` times; with
`fuel = 64` this is `bits.Len64`. -/
def lenAux : Nat → Nat → Nat
  | 0, _ => 0
  | fuel + 1, n => if n = 0 then 0 else lenAux fuel (n / 2) + 1

/-- The conversion `float64(n)` of an `int`: the nearest number with a 53-bit significand,
ties to the even significand. The result of converting a 64-bit integer is again an integer,
so it is returned as one. -/
def float64OfInt (n : Int) : Int :=
  let a := n.natAbs
  let e := lenAux 64 a - 53
  let q := a / 2 ^ e
  let r := a % 2 ^ e
  let q' := if 2 * r > 2 ^ e ∨ (2 * r = 2 ^ e ∧ q % 2 = 1) then q + 1 else q
  if n < 0 then -((q' * 2 ^ e : Nat) : Int) else ((q' * 2 ^ e : Nat) : Int)

/-! ## `parseHSVValues` -/

/-- The function `parseHSVValues` (main.go, lines 40-62). The Go function returns `(-1, -1, -1, err)` on
failure; here that is `.error` with the message of `err`. -/
def parseHSVValues (hsvString : String) : Except String (ℚ × ℚ × ℚ) :=
  match Split hsvString ',' with
  | [c0, c1, c2] =>
    match Atoi c0 with
    | .error _ => .error "invalid h value"
    | .ok h =>
      match Atoi c1 with
      | .error _ => .error "invalid s value"
      | .ok s =>
        match Atoi c2 with
        | .error _ => .error "invalid v value"
        | .ok v => .ok ((float64OfInt h : ℚ), (float64OfInt s : ℚ), (float64OfInt v : ℚ))
  | _ => .error "invalid hsv values"

/-- The number a list of decimal digits denotes, read after the digits that gave `acc`. -/
def digitsVal : Nat → List Char → Nat
  | acc, [] => acc
  | acc, c :: cs => digitsVal (acc * 10 + (c.toNat - 48)) cs

/-- The flag string `"h,s,v"`: the decimal renderings of three integers joined by commas. -/
def renderHSV (h s v : Int) : String :=
  String.mk (Itoa h ++ ',' :: Itoa s ++ ',' :: Itoa v)

/-- An integer literal, as the specification's "three comma-separated integers" reads: an
optional sign followed by at least one decimal digit, and nothing else. -/
def IsIntLiteral (s : List Char) : Prop :=
  ∃ sign digits, s = sign ++ digits ∧ (sign = [] ∨ sign = ['+'] ∨ sign = ['-']) ∧
    digits ≠ [] ∧ ∀ c ∈ digits, c.isDigit = true

/-- A malformed colour-range string: the split at `","` does not give exactly three
components, or one of the components is not an integer literal. -/
def Malformed (s : String) : Prop :=
  (Split s ',').length ≠ 3 ∨ ∃ c ∈ Split s ',', ¬ IsIntLiteral c

/-! ## Floating-point rounding -/

/-- The rounding steps of the arithmetic in `HandleFrame`. `centroid` rounds a real number to
the numeric type in which `FindLargestObject` hands out the centroid (package `mode` is not
among the sources; gocv reports circles in `float32`); `float64` rounds to `float64`. -/
structure Rounding where
  centroid : ℚ → ℚ
  float64 : ℚ → ℚ

/-- A number with a significand of at most `p` bits: `m * 2^e` with `|m| < 2^p`. (The exponent
range of the format is not modelled.) -/
def Representable (p : Nat) (q : ℚ) : Prop :=
  ∃ m e : Int, m.natAbs < 2 ^ p ∧ q = m * (2 : ℚ) ^ e

/-- What the proofs use of a rounding mode: it is monotone and leaves representable numbers as
they are. Every IEEE 754 rounding mode has both properties, for `float32` coordinates as for
`float64` ones (see `ieee_sound` for round-to-nearest-even); so has exact arithmetic. -/
structure Rounding.Sound (R : Rounding) : Prop where
  centroid_mono : Monotone R.centroid
  centroid_fix : ∀ q, Representable 24 q → R.centroid q = q
  float64_mono : Monotone R.float64
  float64_fix : ∀ q, Representable 53 q → R.float64 q = q

/-- What round-to-nearest adds: the rounded number is within a relative error of `2^-p` of the
number rounded, `p` being the width of the significand (24 for `float32`, 53 for `float64`).
Exact arithmetic has the property as well. -/
structure Rounding.Nearest (R : Rounding) : Prop where
  centroid_error : ∀ q, |R.centroid q - q| ≤ |q| / 2 ^ 24
  float64_error : ∀ q, |R.float64 q - q| ≤ |q| / 2 ^ 53

/-- Rounding `x` to the nearest integer, ties to the even one. -/
def roundHalfEven (x : ℚ) : Int :=
  if x - ⌊x⌋ < 1 / 2 then ⌊x⌋
  else if 1 / 2 < x - ⌊x⌋ then ⌊x⌋ + 1
  else if ⌊x⌋ % 2 = 0 then ⌊x⌋ else ⌊x⌋ + 1

/-- What characterises rounding to the nearest integer, ties to even: `r` is nearer to `x`
than half a unit, or exactly half a unit away and even. -/
def IsNearestEven (x : ℚ) (r : Int) : Prop :=
  |x - r| < 1 / 2 ∨ (|x - r| = 1 / 2 ∧ r % 2 = 0)

/-- Round to nearest, ties to even, with a significand of `p` bits (IEEE 754 `binary32` for
`p = 24`, `binary64` for `p = 53`; exponent range not modelled): `q` is scaled by a power of two
so that its integer part has exactly `p` bits, rounded to an integer, and scaled back. -/
def roundNearestEven (p : Nat) (q : ℚ) : ℚ :=
  if q = 0 then 0
  else roundHalfEven (q / (2 : ℚ) ^ (Int.log 2 |q| - (p - 1))) * (2 : ℚ) ^ (Int.log 2 |q| - (p - 1))

/-- IEEE 754 arithmetic with `float32` centroid coordinates. -/
def ieee : Rounding where
  centroid := roundNearestEven 24
  float64 := roundNearestEven 53

/-- The conversion `int(f)` of a float to the 64-bit `int`: truncation toward zero. For a value
outside the range of `int` the Go specification leaves the result to the implementation; amd64
gives the smallest `int`, and so does the model. -/
def intOfFloat (f : ℚ) : Int :=
  if -2 ^ 63 ≤ (if 0 ≤ f then ⌊f⌋ else ⌈f⌉) ∧ (if 0 ≤ f then ⌊f⌋ else ⌈f⌉) < 2 ^ 63 then
    (if 0 ≤ f then ⌊f⌋ else ⌈f⌉)
  else -2 ^ 63

/-! ## The handler and its collaborators -/

/-- Package `pid` (github.com/brunoga/robomaster/support/pid) as the handler uses it: a
constructor `NewPIDController(kp, ki, kd, min, max)` and the method `Output(error)`, which
returns the command and changes the controller's state `σ`. -/
structure PID (σ : Type) where
  NewPIDController : ℚ → ℚ → ℚ → ℚ → ℚ → σ
  Output : σ → ℚ → ℚ × σ

/-- The state of one axis controller of the specification, section 3 (`PIDState`). -/
structure PIDState where
  kp : ℚ
  ki : ℚ
  kd : ℚ
  integral : ℚ
  previousError : ℚ
  min : ℚ
  max : ℚ
  deriving DecidableEq

/-- Modelled from the spec: package `pid` is not among the sources. Section 4.4:
`integral' = integral + error`, `derivative = error - previousError`,
`raw = kp*error + ki*integral' + kd*derivative`, `command = clamp(raw, min, max)`, and the
integral and the previous error are updated. Arithmetic is exact. -/
def specPID : PID PIDState where
  NewPIDController kp ki kd min max :=
    { kp := kp, ki := ki, kd := kd, integral := 0, previousError := 0, min := min, max := max }
  Output s error :=
    let integral := s.integral + error
    let derivative := error - s.previousError
    let raw := s.kp * error + s.ki * integral + s.kd * derivative
    (if raw > s.max then s.max else if raw < s.min then s.min else raw,
      { s with integral := integral, previousError := error })

/-- The arguments `mode.NewColorObject(hl, sl, vl, hu, su, vu, minRadius)` was called with
(package `mode` is not among the sources; the tracker is known by what it is given). -/
structure ColorObject where
  hl : ℚ
  sl : ℚ
  vl : ℚ
  hu : ℚ
  su : ℚ
  vu : ℚ
  minRadius : ℚ
  deriving DecidableEq

/-- The type `exampleVideoHandler` (main.go, lines 31-38): the fields that hold data.
`window`, `chassisModule` and `quitChan` are handles to collaborators; calls on them are
`Event`s. -/
structure exampleVideoHandler (σ : Type) where
  tracker : ColorObject
  pidPitch : σ
  pidYaw : σ

/-- The type `controller.StickPosition`. -/
structure StickPosition where
  X : ℚ
  Y : ℚ
  deriving DecidableEq

/-- The calls of `HandleFrame` that draw, print, ask a controller, actuate or display, in
program order. (Preparing the frame, that is `NewMatFromBytes`, `CvtColor`, `Clone` and the
deferred `Close` calls, and asking the detector leave no event; what they answer is in
`Cycle`.) -/
inductive Event where
  /-- The call `gocv.Circle(&outputFrame, image.Point(X, Y), radius, cyan, 2)`, line 126 -/
  | Circle (X Y radius : Int)
  /-- The call `fmt.Println("errX: ", errX, "errY: ", errY)`, line 135 -/
  | PrintlnErrors (errX errY : ℚ)
  /-- The call `e.pidYaw.Output(errX)`, line 142 -/
  | YawOutput (errX : ℚ)
  /-- The call `e.pidPitch.Output(errY)`, line 143 -/
  | PitchOutput (errY : ℚ)
  /-- The call `fmt.Printf` of `outputX` and `outputY`, line 144 -/
  | PrintfOutputs (outputX outputY : ℚ)
  /-- The call `e.chassisModule.Move(nil, &gimbalStickPosition, controller.ModeSDK)`,
  line 149 -/
  | Move (gimbalStickPosition : StickPosition)
  /-- The call `fmt.Println(err)` after a failed `Move`, line 151 -/
  | PrintlnMoveError
  /-- The call `e.window.IMShow(outputFrame)`, line 158: the frame shown is the clone of the
  input frame, with the circle drawn on it if there is one -/
  | IMShow (circle : Option (Int × Int × Int))
  /-- The call `e.window.WaitKey(1)`, line 159 -/
  | WaitKey
  deriving DecidableEq

/-- What the collaborators answer during one call of `HandleFrame`. -/
structure Cycle where
  /-- Whether `gocv.NewMatFromBytes` returns an error for `frame.Pix` (line 104) -/
  matErr : Bool
  /-- The answer of `e.tracker.FindLargestObject(&inFrame)` (line 123): `some (x, y, radius)`
  when `err == nil`, `none` otherwise -/
  found : Option (ℚ × ℚ × ℚ)
  /-- Whether `e.chassisModule.Move` returns an error (line 149) -/
  moveErr : Bool

/-- The constant `camera.HorizontalResolutionPoints`. -/
def HorizontalResolutionPoints : Nat := 1280

/-- The constant `camera.VerticalResolutionPoints`. -/
def VerticalResolutionPoints : Nat := 720

/-- Lines 130-131: `float64(x-(camera.HorizontalResolutionPoints/2)) /
camera.HorizontalResolutionPoints`. The constant division is an integer division; the
subtraction is done in the type of `x`, the division in `float64`. -/
def errX (R : Rounding) (x : ℚ) : ℚ :=
  R.float64 (R.centroid (x - ((HorizontalResolutionPoints / 2 : Nat) : ℚ)) /
    (HorizontalResolutionPoints : ℚ))

/-- Lines 132-133: `float64((camera.VerticalResolutionPoints/2)-y) /
camera.VerticalResolutionPoints`. -/
def errY (R : Rounding) (y : ℚ) : ℚ :=
  R.float64 (R.centroid (((VerticalResolutionPoints / 2 : Nat) : ℚ) - y) /
    (VerticalResolutionPoints : ℚ))

/-- The method `HandleFrame` (main.go, lines 101-167): the handler after the call and the calls
made. A rejected frame returns at once; otherwise the detector's answer decides between
showing the frame as it is and drawing the circle, computing the errors and, unless both are
zero, asking the two controllers and sending the command. The frame is shown in either case. -/
def HandleFrame {σ : Type} (P : PID σ) (R : Rounding) (e : exampleVideoHandler σ) (c : Cycle) :
    exampleVideoHandler σ × List Event :=
  if c.matErr then (e, [])
  else
    match c.found with
    | none => (e, [Event.IMShow none, Event.WaitKey])
    | some (x, y, radius) =>
      let circle := (intOfFloat x, intOfFloat y, intOfFloat radius)
      let eX := errX R x
      let eY := errY R y
      if |eX| > 0 ∨ |eY| > 0 then
        let outX := P.Output e.pidYaw eX
        let outY := P.Output e.pidPitch eY
        let gimbalStickPosition : StickPosition := { X := outX.1, Y := -outY.1 }
        ({ e with pidYaw := outX.2, pidPitch := outY.2 },
          [Event.Circle circle.1 circle.2.1 circle.2.2, Event.PrintlnErrors eX eY,
            Event.YawOutput eX, Event.PitchOutput eY, Event.PrintfOutputs outX.1 outY.1,
            Event.Move gimbalStickPosition] ++
          (if c.moveErr then [Event.PrintlnMoveError] else []) ++
          [Event.IMShow (some circle), Event.WaitKey])
      else
        (e, [Event.Circle circle.1 circle.2.1 circle.2.2, Event.PrintlnErrors eX eY,
          Event.IMShow (some circle), Event.WaitKey])

/-- The frames of a session: `HandleFrame` is the camera's video callback (line 200), called
once per frame, each call starting from the handler the previous one left. -/
def run {σ : Type} (P : PID σ) (R : Rounding) :
    exampleVideoHandler σ → List Cycle → exampleVideoHandler σ × List Event
  | e, [] => (e, [])
  | e, c :: cs =>
    let r := HandleFrame P R e c
    let rest := run P R r.1 cs
    (rest.1, r.2 ++ rest.2)

/-- The constructor `newExampleVideoHandler` (main.go, lines 64-95), with the two flags `*hsvLower` and
`*hsvUpper` as arguments. (The window is opened before the flags are parsed; that call has no
part in the result.) -/
def newExampleVideoHandler {σ : Type} (P : PID σ) (R : Rounding) (hsvLower hsvUpper : String) :
    Except String (exampleVideoHandler σ) :=
  match parseHSVValues hsvLower with
  | .error err => .error err
  | .ok (hl, sl, vl) =>
    match parseHSVValues hsvUpper with
    | .error err => .error err
    | .ok (hu, su, vu) =>
      .ok { tracker := { hl := hl, sl := sl, vl := vl, hu := hu, su := su, vu := vu,
                         minRadius := 10 }
            pidPitch := P.NewPIDController (R.float64 (7 / 10)) 0 0 (-1) 1
            pidYaw := P.NewPIDController (R.float64 (7 / 10)) 0 0 (-1) 1 }

/-- The default value of the flag `hsvlower` (line 25). -/
def hsvLowerDefault : String := "35,219,90"

/-- The default value of the flag `hsvupper` (line 27). The usage string of the flag reads
"lower bound for color filtering", copied from `hsvlower`; the value is used as the upper
bound (lines 79-86). -/
def hsvUpperDefault : String := "119,255,255"

/-- The handler `newExampleVideoHandler` builds from the default flags, with the controllers
of the specification and IEEE arithmetic. -/
def defaultHandler : exampleVideoHandler PIDState where
  tracker := { hl := 35, sl := 219, vl := 90, hu := 119, su := 255, vu := 255, minRadius := 10 }
  pidPitch := specPID.NewPIDController (ieee.float64 (7 / 10)) 0 0 (-1) 1
  pidYaw := specPID.NewPIDController (ieee.float64 (7 / 10)) 0 0 (-1) 1

/-- A cycle in which the detector reports an object of radius 20 at the corner `(0, 0)` of an
accepted frame and `Move` succeeds. -/
def cornerCycle : Cycle where
  matErr := false
  found := some (0, 0, 20)
  moveErr := false

/-- The state of a controller built with bounds `min = -1`, `max = 1`. -/
def UnitBounds (s : PIDState) : Prop :=
  s.min = -1 ∧ s.max = 1

/-- The command the default handler issues in `cornerCycle`. -/
def cornerCommand : StickPosition where
  X := (specPID.Output defaultHandler.pidYaw (errX ieee 0)).1
  Y := -(specPID.Output defaultHandler.pidPitch (errY ieee 0)).1

/-- The `Move` commands among the calls. -/
def moves : List Event → List StickPosition
  | [] => []
  | Event.Move p :: es => p :: moves es
  | _ :: es => moves es

/-- The errors handed to the yaw controller among the calls. -/
def yawCalls : List Event → List ℚ
  | [] => []
  | Event.YawOutput x :: es => x :: yawCalls es
  | _ :: es => yawCalls es

/-- The errors handed to the pitch controller among the calls. -/
def pitchCalls : List Event → List ℚ
  | [] => []
  | Event.PitchOutput x :: es => x :: pitchCalls es
  | _ :: es => pitchCalls es

/-- The frames shown among the calls. -/
def shown : List Event → List (Option (Int × Int × Int))
  | [] => []
  | Event.IMShow f :: es => f :: shown es
  | _ :: es => shown es

/-! ## Decimal rendering and parsing -/

theorem maxUint64_eq : maxUint64 = 18446744073709551615 := by
  norm_num [maxUint64]

theorem digitChar_toNat (k : Nat) (hk : k < 10) :
    48 ≤ (Nat.digitChar k).toNat ∧ (Nat.digitChar k).toNat ≤ 57 ∧
      (Nat.digitChar k).toNat - 48 = k := by
  interval_cases k <;> decide

theorem digitsVal_nil (acc : Nat) : digitsVal acc [] = acc := rfl

theorem digitsVal_cons (acc : Nat) (c : Char) (cs : List Char) :
    digitsVal acc (c :: cs) = digitsVal (acc * 10 + (c.toNat - 48)) cs := rfl

theorem ParseUintLoop_cons (n : Nat) (c : Char) (cs : List Char) :
    ParseUintLoop n (c :: cs) =
      if 48 ≤ c.toNat ∧ c.toNat ≤ 57 then
        if n ≥ maxUint64 / 10 + 1 then .error .ErrRange
        else if n * 10 + (c.toNat - 48) > maxUint64 then .error .ErrRange
        else ParseUintLoop (n * 10 + (c.toNat - 48)) cs
      else .error .ErrSyntax := rfl

theorem AtoiLoop_cons (n : Nat) (c : Char) (cs : List Char) :
    AtoiLoop n (c :: cs) =
      if 48 ≤ c.toNat ∧ c.toNat ≤ 57 then AtoiLoop (n * 10 + (c.toNat - 48)) cs
      else .error .ErrSyntax := rfl

theorem length_le_byteLen (s : List Char) : s.length ≤ byteLen s := by
  induction s with
  | nil => exact le_rfl
  | cons c cs ih =>
    have := Char.utf8Size_pos c
    show cs.length + 1 ≤ c.utf8Size + byteLen cs
    omega

/-- On fewer than 19 characters the two digit loops agree, and the value stays below
`10^18`. -/
theorem AtoiLoop_eq (l : List Char) : ∀ (k n : Nat), n < 10 ^ k → k + l.length ≤ 18 →
    AtoiLoop n l = ParseUintLoop n l ∧ ∀ v, AtoiLoop n l = .ok v → v < 10 ^ 18 := by
  induction l with
  | nil =>
    intro k n hn hk
    refine ⟨rfl, ?_⟩
    intro v hv
    cases hv
    exact lt_of_lt_of_le hn (Nat.pow_le_pow_right (by norm_num) (by simpa using hk))
  | cons c cs ih =>
    intro k n hn hk
    have hk18 : k ≤ 17 := by simp at hk; omega
    have hn18 : n < 10 ^ 17 := lt_of_lt_of_le hn (Nat.pow_le_pow_right (by norm_num) hk18)
    rw [AtoiLoop_cons, ParseUintLoop_cons]
    by_cases hc : 48 ≤ c.toNat ∧ c.toNat ≤ 57
    · have h1 : ¬ n ≥ maxUint64 / 10 + 1 := by rw [maxUint64_eq]; omega
      have h2 : ¬ n * 10 + (c.toNat - 48) > maxUint64 := by rw [maxUint64_eq]; omega
      rw [if_pos hc, if_pos hc, if_neg h1, if_neg h2]
      exact ih (k + 1) _ (by rw [pow_succ]; omega) (by simp at hk ⊢; omega)
    · rw [if_neg hc, if_neg hc]
      exact ⟨rfl, fun v hv => by cases hv⟩

/-- The fast path of `Atoi` returns what `ParseInt` returns. -/
theorem Atoi_eq_ParseInt (s : List Char) : Atoi s = ParseInt s := by
  unfold Atoi
  split
  · rename_i hlen
    have hl := length_le_byteLen s
    cases s with
    | nil => rfl
    | cons c cs =>
      have hcs := length_le_byteLen cs
      have hc1 := Char.utf8Size_pos c
      have hb : byteLen (c :: cs) = c.utf8Size + byteLen cs := rfl
      simp only [List.length_cons] at hl
      by_cases hsign : c = '-' ∨ c = '+'
      · have hsign' : c = '+' ∨ c = '-' := hsign.symm
        simp only [hsign, hsign', true_and, if_true, ParseInt]
        cases cs with
        | nil => simp [byteLen, ParseUint]
        | cons d ds =>
          have hd1 := Char.utf8Size_pos d
          have hb2 : byteLen (d :: ds) = d.utf8Size + byteLen ds := rfl
          have hnot : ¬ byteLen (d :: ds) < 1 := by omega
          obtain ⟨heq, hbound⟩ := AtoiLoop_eq (d :: ds) 0 0 (by norm_num) (by omega)
          rw [if_neg hnot]
          simp only [ParseUint, ← heq]
          cases hloop : AtoiLoop 0 (d :: ds) with
          | error err => rfl
          | ok n =>
            have hn := hbound n hloop
            have h1 : ¬ (¬ c = '-' ∧ n ≥ 2 ^ 63) := by omega
            have h2 : ¬ (c = '-' ∧ n > 2 ^ 63) := by omega
            dsimp only
            rw [if_neg h1, if_neg h2]
      · have hsign' : ¬ (c = '+' ∨ c = '-') := fun h => hsign h.symm
        have hminus : ¬ c = '-' := fun h => hsign (Or.inl h)
        simp only [hsign, hsign', false_and, if_false, ParseInt]
        obtain ⟨heq, hbound⟩ := AtoiLoop_eq (c :: cs) 0 0 (by norm_num) (by simp; omega)
        simp only [ParseUint, ← heq]
        cases hloop : AtoiLoop 0 (c :: cs) with
        | error err => rfl
        | ok n =>
          have hn := hbound n hloop
          have h1 : ¬ (¬ c = '-' ∧ n ≥ 2 ^ 63) := by omega
          have h2 : ¬ (c = '-' ∧ n > 2 ^ 63) := by omega
          dsimp only
          rw [if_neg h1, if_neg h2]
  · rfl
theorem digitsVal_append (l₁ l₂ : List Char) (acc : Nat) :
    digitsVal acc (l₁ ++ l₂) = digitsVal (digitsVal acc l₁) l₂ := by
  induction l₁ generalizing acc with
  | nil => rfl
  | cons c cs ih => exact ih _

theorem le_digitsVal (l : List Char) (acc : Nat) : acc ≤ digitsVal acc l := by
  induction l generalizing acc with
  | nil => exact le_rfl
  | cons c cs ih =>
    have h := ih (acc * 10 + (c.toNat - 48))
    show acc ≤ digitsVal (acc * 10 + (c.toNat - 48)) cs
    omega

/-- On a list of digits whose value fits `uint64`, the loop of `ParseUint` returns the value. -/
theorem ParseUintLoop_digits (l : List Char) (acc : Nat)
    (hd : ∀ c ∈ l, 48 ≤ c.toNat ∧ c.toNat ≤ 57) (hv : digitsVal acc l ≤ maxUint64) :
    ParseUintLoop acc l = .ok (digitsVal acc l) := by
  induction l generalizing acc with
  | nil => rfl
  | cons c cs ih =>
    have hc := hd c (List.mem_cons_self _ _)
    have hle := le_digitsVal cs (acc * 10 + (c.toNat - 48))
    change digitsVal (acc * 10 + (c.toNat - 48)) cs ≤ maxUint64 at hv
    show ParseUintLoop acc (c :: cs) = .ok (digitsVal (acc * 10 + (c.toNat - 48)) cs)
    rw [maxUint64_eq] at hv
    have h1 : ¬ acc ≥ maxUint64 / 10 + 1 := by
      rw [maxUint64_eq]
      omega
    have h2 : ¬ acc * 10 + (c.toNat - 48) > maxUint64 := by
      rw [maxUint64_eq]
      omega
    rw [ParseUintLoop_cons, if_pos hc, if_neg h1, if_neg h2]
    exact ih _ (fun c' hc' => hd c' (List.mem_cons_of_mem _ hc')) hv

/-- The digits `Nat.toDigitsCore` puts in front of `ds`. -/
theorem toDigitsCore_spec (fuel : Nat) : ∀ n ds, n < fuel →
    ∃ l, Nat.toDigitsCore 10 fuel n ds = l ++ ds ∧ l ≠ [] ∧
      (∀ c ∈ l, 48 ≤ c.toNat ∧ c.toNat ≤ 57) ∧
      ∀ acc, digitsVal acc l = acc * 10 ^ l.length + n := by
  induction fuel with
  | zero => intro n ds h; omega
  | succ fuel ih =>
    intro n ds hn
    have hk := digitChar_toNat (n % 10) (Nat.mod_lt _ (by decide))
    by_cases h0 : n / 10 = 0
    · refine ⟨[Nat.digitChar (n % 10)], ?_, by simp, ?_, ?_⟩
      · simp [Nat.toDigitsCore, h0]
      · intro c hc
        rw [List.mem_singleton] at hc
        subst hc
        exact ⟨hk.1, hk.2.1⟩
      · intro acc
        simp only [digitsVal_cons, digitsVal_nil, hk.2.2, List.length_singleton, pow_one]
        omega
    · obtain ⟨l, hl, -, hdig, hval⟩ := ih (n / 10) (Nat.digitChar (n % 10) :: ds) (by omega)
      refine ⟨l ++ [Nat.digitChar (n % 10)], ?_, by simp, ?_, ?_⟩
      · simp [Nat.toDigitsCore, h0, hl]
      · intro c hc
        rcases List.mem_append.1 hc with hc | hc
        · exact hdig c hc
        · rw [List.mem_singleton] at hc
          subst hc
          exact ⟨hk.1, hk.2.1⟩
      · intro acc
        rw [digitsVal_append, hval]
        simp only [digitsVal_cons, digitsVal_nil, hk.2.2, List.length_append, List.length_singleton, pow_succ]
        have := Nat.div_add_mod n 10
        nlinarith

theorem toDigits_spec (n : Nat) :
    Nat.toDigits 10 n ≠ [] ∧ (∀ c ∈ Nat.toDigits 10 n, 48 ≤ c.toNat ∧ c.toNat ≤ 57) ∧
      digitsVal 0 (Nat.toDigits 10 n) = n := by
  obtain ⟨l, hl, hne, hdig, hval⟩ := toDigitsCore_spec (n + 1) n [] (Nat.lt_succ_self n)
  have : Nat.toDigits 10 n = l := by simpa [Nat.toDigits] using hl
  rw [this]
  exact ⟨hne, hdig, by simpa using hval 0⟩

theorem ParseUint_toDigits (n : Nat) (hn : n ≤ maxUint64) :
    ParseUint (Nat.toDigits 10 n) = .ok n := by
  obtain ⟨hne, hdig, hval⟩ := toDigits_spec n
  have h := ParseUintLoop_digits (Nat.toDigits 10 n) 0 hdig (by rw [hval]; exact hn)
  rw [hval] at h
  cases hl : Nat.toDigits 10 n with
  | nil => exact absurd hl hne
  | cons c cs => rw [hl] at h; simpa [ParseUint] using h

/-- Parsing a rendered 64-bit integer gives it back. -/
theorem Atoi_Itoa (i : Int) (hlo : -2 ^ 63 ≤ i) (hhi : i < 2 ^ 63) : Atoi (Itoa i) = .ok i := by
  obtain ⟨hne, hdig, -⟩ := toDigits_spec i.natAbs
  have hp := ParseUint_toDigits i.natAbs (by rw [maxUint64_eq]; omega)
  rw [Atoi_eq_ParseInt]
  by_cases hneg : i < 0
  · simp only [Itoa, hneg, if_true, ParseInt, or_true, hp]
    have h1 : ¬ (True ∧ i.natAbs > 2 ^ 63) := by omega
    rw [if_neg (by simp), if_neg h1]
    congr 1
    omega
  · cases hl : Nat.toDigits 10 i.natAbs with
    | nil => exact absurd hl hne
    | cons c cs =>
      have hc := hdig c (by rw [hl]; exact List.mem_cons_self _ _)
      have hplus : c ≠ '+' := by rintro rfl; revert hc; decide
      have hminus : c ≠ '-' := by rintro rfl; revert hc; decide
      rw [hl] at hp
      simp only [Itoa, hneg, if_false, hl, ParseInt, hplus, hminus, or_self, hp]
      have h1 : ¬ (¬ False ∧ i.natAbs ≥ 2 ^ 63) := by omega
      rw [if_neg h1, if_neg (by simp)]
      congr 1
      omega

theorem Itoa_no_comma (i : Int) : ',' ∉ Itoa i := by
  obtain ⟨-, hdig, -⟩ := toDigits_spec i.natAbs
  have hd : ',' ∉ Nat.toDigits 10 i.natAbs := fun hmem => by
    have := hdig ',' hmem
    revert this
    decide
  unfold Itoa
  split
  · intro hmem
    rcases List.mem_cons.1 hmem with h | h
    · revert h; decide
    · exact hd h
  · exact hd

/-- Splitting a rendered triple at the commas gives the three renderings. -/
theorem Split_renderHSV (h s v : Int) : Split (renderHSV h s v) ',' = [Itoa h, Itoa s, Itoa v] := by
  have key := List.splitOn_intercalate [Itoa h, Itoa s, Itoa v] ','
    (by
      intro l hl
      simp only [List.mem_cons, List.mem_singleton, List.not_mem_nil, or_false] at hl
      rcases hl with rfl | rfl | rfl <;> exact Itoa_no_comma _)
    (by simp)
  simpa [Split, renderHSV, List.intercalate, List.intersperse] using key

theorem lenAux_le (fuel : Nat) : ∀ a k, a < 2 ^ k → lenAux fuel a ≤ k := by
  induction fuel with
  | zero => intro a k _; exact Nat.zero_le _
  | succ fuel ih =>
    intro a k ha
    unfold lenAux
    split
    · exact Nat.zero_le _
    · rename_i ha0
      cases k with
      | zero => simp at ha; omega
      | succ k =>
        have := ih (a / 2) k (by rw [pow_succ] at ha; omega)
        omega

/-- Converting an integer of magnitude at most `2^53` to `float64` is exact. -/
theorem float64OfInt_exact (n : Int) (hn : n.natAbs ≤ 2 ^ 53) : float64OfInt n = n := by
  rcases Nat.lt_or_ge n.natAbs (2 ^ 53) with hlt | hge
  · have he : lenAux 64 n.natAbs - 53 = 0 := by
      have := lenAux_le 64 n.natAbs 53 hlt
      omega
    simp only [float64OfInt, he, pow_zero, Nat.div_one, Nat.mod_one, Nat.mul_one]
    have hc : ¬ (2 * 0 > 1 ∨ 2 * 0 = 1 ∧ n.natAbs % 2 = 1) := by omega
    simp only [if_neg hc]
    split <;> omega
  · have h53 : n.natAbs = 2 ^ 53 := le_antisymm hn hge
    rcases Int.natAbs_eq n with h | h
    · rw [h, h53]; decide
    · rw [h, h53]; decide

/-! ## C1: round trip of `parseHSVValues` -/

/-- C1, as amended: for every triple of integers `h`, `s`, `v` in the range of `int`
(`-2^63 <= n < 2^63`), parsing the string `"h,s,v"` of their decimal renderings succeeds and
returns `(float64(h), float64(s), float64(v))`; this is exactly `(h, s, v)` when each of the
three has magnitude at most `2^53`. -/
theorem parseHSVValues_renderHSV (h s v : Int)
    (hh : -2 ^ 63 ≤ h ∧ h < 2 ^ 63) (hs : -2 ^ 63 ≤ s ∧ s < 2 ^ 63)
    (hv : -2 ^ 63 ≤ v ∧ v < 2 ^ 63) :
    parseHSVValues (renderHSV h s v) =
        .ok ((float64OfInt h : ℚ), (float64OfInt s : ℚ), (float64OfInt v : ℚ)) ∧
      (h.natAbs ≤ 2 ^ 53 → s.natAbs ≤ 2 ^ 53 → v.natAbs ≤ 2 ^ 53 →
        parseHSVValues (renderHSV h s v) = .ok ((h : ℚ), (s : ℚ), (v : ℚ))) := by
  have ah := Atoi_Itoa h hh.1 hh.2
  have as := Atoi_Itoa s hs.1 hs.2
  have av := Atoi_Itoa v hv.1 hv.2
  have key : parseHSVValues (renderHSV h s v) =
      .ok ((float64OfInt h : ℚ), (float64OfInt s : ℚ), (float64OfInt v : ℚ)) := by
    simp only [parseHSVValues, Split_renderHSV, ah, as, av]
  refine ⟨key, fun bh bs bv => ?_⟩
  rw [key, float64OfInt_exact h bh, float64OfInt_exact s bs, float64OfInt_exact v bv]

/-- The default flags: `"35,219,90"` gives `(35, 219, 90)` and `"119,255,255"` gives
`(119, 255, 255)`. -/
theorem parseHSVValues_renderHSV_default :
    (renderHSV 35 219 90 = "35,219,90" ∧
      parseHSVValues (renderHSV 35 219 90) = .ok (((35 : Int) : ℚ), ((219 : Int) : ℚ),
        ((90 : Int) : ℚ))) ∧
    parseHSVValues "35,219,90" = .ok (35, 219, 90) ∧
    parseHSVValues "119,255,255" = .ok (119, 255, 255) :=
  ⟨⟨by decide,
    (parseHSVValues_renderHSV 35 219 90 (by decide) (by decide) (by decide)).2 (by decide)
      (by decide) (by decide)⟩, by decide, by decide⟩

/-- C1 fails as stated: `2^53 + 1 = 9007199254740993` is an integer, the string
`"9007199254740993,0,0"` parses, and the first result is `9007199254740992`, not the integer
written. (An integer beyond the range of `int` is not parsed at all: for
`2^63 = 9223372036854775808` the error is `invalid h value`.) -/
theorem parseHSVValues_renderHSV_inexact :
    (renderHSV 9007199254740993 0 0 = "9007199254740993,0,0" ∧
      parseHSVValues (renderHSV 9007199254740993 0 0) = .ok (9007199254740992, 0, 0) ∧
      parseHSVValues (renderHSV 9007199254740993 0 0) ≠
        .ok (((9007199254740993 : Int) : ℚ), ((0 : Int) : ℚ), ((0 : Int) : ℚ))) ∧
    (renderHSV 9223372036854775808 0 0 = "9223372036854775808,0,0" ∧
      parseHSVValues (renderHSV 9223372036854775808 0 0) = .error "invalid h value") := by
  decide

/-! ## C2: malformed strings are rejected -/

theorem isDigit_iff (c : Char) : c.isDigit = true ↔ 48 ≤ c.toNat ∧ c.toNat ≤ 57 := by
  simp [Char.isDigit, Char.toNat, UInt32.le_def, BitVec.le_def, UInt32.toNat]

theorem ParseUintLoop_ok_digits (l : List Char) : ∀ acc v, ParseUintLoop acc l = .ok v →
    ∀ c ∈ l, c.isDigit = true := by
  induction l with
  | nil => intro _ _ _ c hc; cases hc
  | cons d ds ih =>
    intro acc v h c hc
    rw [ParseUintLoop_cons] at h
    by_cases hd : 48 ≤ d.toNat ∧ d.toNat ≤ 57
    · rw [if_pos hd] at h
      split at h
      · cases h
      · split at h
        · cases h
        · rcases List.mem_cons.1 hc with rfl | hc
          · exact (isDigit_iff _).2 hd
          · exact ih _ _ h c hc
    · rw [if_neg hd] at h
      cases h

/-- Whatever `Atoi` accepts is an integer literal. -/
theorem Atoi_ok_literal (s : List Char) (n : Int) (h : Atoi s = .ok n) : IsIntLiteral s := by
  rw [Atoi_eq_ParseInt] at h
  cases s with
  | nil => simp [ParseInt] at h
  | cons c cs =>
    simp only [ParseInt] at h
    by_cases hsign : c = '+' ∨ c = '-'
    · rw [if_pos hsign] at h
      cases hcs : cs with
      | nil => rw [hcs] at h; simp [ParseUint] at h
      | cons d ds =>
        rw [hcs] at h
        cases hu : ParseUintLoop 0 (d :: ds) with
        | error e => simp [ParseUint, hu] at h
        | ok un =>
          refine ⟨[c], d :: ds, rfl, ?_, by simp, ParseUintLoop_ok_digits _ _ _ hu⟩
          rcases hsign with rfl | rfl <;> simp
    · rw [if_neg hsign] at h
      cases hu : ParseUintLoop 0 (c :: cs) with
      | error e => simp [ParseUint, hu] at h
      | ok un => exact ⟨[], c :: cs, rfl, Or.inl rfl, by simp, ParseUintLoop_ok_digits _ _ _ hu⟩

/-- C2: `parseHSVValues` returns an error on every malformed string (the split at `","` does
not give exactly three components, or a component is not an integer literal), and the outcome
is determined by the string: equal strings give equal outcomes. -/
theorem parseHSVValues_malformed (s : String) (hs : Malformed s) :
    (∃ msg, parseHSVValues s = .error msg) ∧ ∀ t, t = s → parseHSVValues t = parseHSVValues s := by
  refine ⟨?_, fun t ht => by rw [ht]⟩
  unfold parseHSVValues
  split
  · rename_i c0 c1 c2 hsplit
    rcases hs with hlen | ⟨c, hc, hlit⟩
    · rw [hsplit] at hlen; simp at hlen
    · cases h0 : Atoi c0 with
      | error _ => exact ⟨_, rfl⟩
      | ok h =>
        cases h1 : Atoi c1 with
        | error _ => exact ⟨_, rfl⟩
        | ok s1 =>
          cases h2 : Atoi c2 with
          | error _ => exact ⟨_, rfl⟩
          | ok v =>
            exfalso
            rw [hsplit] at hc
            simp only [List.mem_cons, List.mem_singleton, List.not_mem_nil, or_false] at hc
            rcases hc with rfl | rfl | rfl
            · exact hlit (Atoi_ok_literal _ _ h0)
            · exact hlit (Atoi_ok_literal _ _ h1)
            · exact hlit (Atoi_ok_literal _ _ h2)
  · exact ⟨_, rfl⟩

theorem not_literal_fraction : ¬ IsIntLiteral ['1', '.', '5'] := by
  rintro ⟨sign, digits, h, hsign, -, hd⟩
  rcases hsign with rfl | rfl | rfl
  · have := hd '.' (by rw [← show ['1', '.', '5'] = digits from h]; simp)
    revert this; decide
  · simp at h
  · simp at h

/-- The fractional component of `"1.5,219,90"` is rejected with the message for `h`. -/
theorem parseHSVValues_malformed_fraction :
    Malformed "1.5,219,90" ∧ parseHSVValues "1.5,219,90" = .error "invalid h value" ∧
      ∃ msg, parseHSVValues "1.5,219,90" = .error msg :=
  have hm : Malformed "1.5,219,90" :=
    Or.inr ⟨['1', '.', '5'], by decide, not_literal_fraction⟩
  ⟨hm, by decide, (parseHSVValues_malformed "1.5,219,90" hm).1⟩

/-! ## Round to nearest, ties to even -/

theorem roundHalfEven_spec (x : ℚ) : IsNearestEven x (roundHalfEven x) := by
  have h0 := Int.floor_le x
  have h1 := Int.lt_floor_add_one x
  unfold roundHalfEven IsNearestEven
  split_ifs with ha hb hc
  · left; rw [abs_lt]; constructor <;> linarith
  · left; rw [abs_lt]; push_cast; constructor <;> linarith
  · right
    have : x - ⌊x⌋ = 1 / 2 := le_antisymm (not_lt.1 hb) (not_lt.1 ha)
    exact ⟨by rw [this]; norm_num, hc⟩
  · right
    have : x - ⌊x⌋ = 1 / 2 := le_antisymm (not_lt.1 hb) (not_lt.1 ha)
    refine ⟨?_, by omega⟩
    push_cast
    rw [show x - (⌊x⌋ + 1 : ℚ) = -(1 / 2) by linarith]
    norm_num

theorem isNearestEven_unique (x : ℚ) (r s : Int) (hr : IsNearestEven x r)
    (hs : IsNearestEven x s) : r = s := by
  have key : ∀ a b : Int, IsNearestEven x a → IsNearestEven x b → a ≤ b := by
    intro a b ha hb
    by_contra hlt
    push_neg at hlt
    have hab : (b : ℚ) + 1 ≤ a := by exact_mod_cast hlt
    rcases ha with ha | ⟨ha, hae⟩ <;> rcases hb with hb | ⟨hb, hbe⟩
    · rw [abs_lt] at ha hb; linarith
    · rw [abs_lt] at ha; have := abs_le.1 hb.le; linarith
    · rw [abs_lt] at hb; have := abs_le.1 ha.le; linarith
    · have h1 := abs_le.1 ha.le
      have h2 := abs_le.1 hb.le
      have : (a : ℚ) = b + 1 := by linarith
      have : a = b + 1 := by exact_mod_cast this
      omega
  exact le_antisymm (key r s hr hs) (key s r hs hr)

theorem roundHalfEven_eq (x : ℚ) (r : Int) (h : IsNearestEven x r) : roundHalfEven x = r :=
  isNearestEven_unique x _ _ (roundHalfEven_spec x) h

theorem roundHalfEven_intCast (n : Int) : roundHalfEven (n : ℚ) = n :=
  roundHalfEven_eq _ _ (Or.inl (by simp))

theorem roundHalfEven_neg (x : ℚ) : roundHalfEven (-x) = -roundHalfEven x := by
  apply roundHalfEven_eq
  rcases roundHalfEven_spec x with h | ⟨h, he⟩
  · left
    rw [show -x - ((-roundHalfEven x : Int) : ℚ) = -(x - roundHalfEven x) by push_cast; ring, abs_neg]
    exact h
  · right
    refine ⟨?_, by omega⟩
    rw [show -x - ((-roundHalfEven x : Int) : ℚ) = -(x - roundHalfEven x) by push_cast; ring, abs_neg]
    exact h

theorem roundHalfEven_mono {x y : ℚ} (h : x ≤ y) : roundHalfEven x ≤ roundHalfEven y := by
  by_contra hlt
  push_neg at hlt
  have hab : (roundHalfEven y : ℚ) + 1 ≤ roundHalfEven x := by exact_mod_cast hlt
  have hx : |x - roundHalfEven x| ≤ 1 / 2 := by
    rcases roundHalfEven_spec x with h | h
    · exact h.le
    · exact h.1.le
  have hy : |y - roundHalfEven y| ≤ 1 / 2 := by
    rcases roundHalfEven_spec y with h | h
    · exact h.le
    · exact h.1.le
  have h1 := abs_le.1 hx
  have h2 := abs_le.1 hy
  have hxy : x = y := by linarith
  subst hxy
  omega

theorem two_zpow_pos (z : Int) : (0 : ℚ) < 2 ^ z := zpow_pos (by norm_num) z

theorem log_bounds (q : ℚ) (hq : 0 < q) :
    (2 : ℚ) ^ Int.log 2 q ≤ q ∧ q < (2 : ℚ) ^ (Int.log 2 q + 1) := by
  have h1 := @Int.zpow_log_le_self ℚ _ _ 2 q (by norm_num) hq
  have h2 := @Int.lt_zpow_succ_log_self ℚ _ _ 2 (by norm_num) q
  exact ⟨by simpa using h1, by simpa using h2⟩

theorem roundNearestEven_neg (p : Nat) (q : ℚ) :
    roundNearestEven p (-q) = -roundNearestEven p q := by
  unfold roundNearestEven
  by_cases hq : q = 0
  · simp [hq]
  · rw [if_neg hq, if_neg (neg_ne_zero.2 hq), abs_neg, neg_div, roundHalfEven_neg]
    push_cast
    ring

/-- A positive number rounds into the closed binade it lies in. -/
theorem roundNearestEven_pos_bounds (p : Nat) (hp : 1 ≤ p) (q : ℚ) (hq : 0 < q) :
    (2 : ℚ) ^ Int.log 2 q ≤ roundNearestEven p q ∧
      roundNearestEven p q ≤ (2 : ℚ) ^ (Int.log 2 q + 1) := by
  obtain ⟨hlo, hhi⟩ := log_bounds q hq
  obtain ⟨k, rfl⟩ : ∃ k, p = k + 1 := ⟨p - 1, by omega⟩
  have hs := two_zpow_pos (Int.log 2 q - k)
  have hm_lo : (((2 ^ k : Int)) : ℚ) ≤ q / 2 ^ (Int.log 2 q - k) := by
    rw [le_div_iff₀ hs]
    push_cast
    rw [← zpow_natCast, ← zpow_add₀ (by norm_num)]
    simpa using hlo
  have hm_hi : q / 2 ^ (Int.log 2 q - k) ≤ (((2 ^ (k + 1) : Int)) : ℚ) := by
    rw [div_le_iff₀ hs]
    push_cast
    rw [← zpow_natCast, ← zpow_add₀ (by norm_num)]
    have : ((k + 1 : ℕ) : ℤ) + (Int.log 2 q - k) = Int.log 2 q + 1 := by push_cast; ring
    rw [this]
    exact hhi.le
  have r_lo := roundHalfEven_mono hm_lo
  have r_hi := roundHalfEven_mono hm_hi
  rw [roundHalfEven_intCast] at r_lo r_hi
  have r_lo' : ((2 ^ k : Int) : ℚ) ≤ roundHalfEven (q / 2 ^ (Int.log 2 q - k)) := by
    exact_mod_cast r_lo
  have r_hi' : (roundHalfEven (q / 2 ^ (Int.log 2 q - k)) : ℚ) ≤ ((2 ^ (k + 1) : Int) : ℚ) := by
    exact_mod_cast r_hi
  unfold roundNearestEven
  rw [if_neg hq.ne', abs_of_pos hq]
  have hcast : (((k + 1 : ℕ) : ℤ) - 1 : ℤ) = k := by push_cast; ring
  simp only [Nat.cast_add, Nat.cast_one, add_sub_cancel_right]
  constructor
  · calc (2 : ℚ) ^ Int.log 2 q = ((2 ^ k : Int) : ℚ) * 2 ^ (Int.log 2 q - k) := by
          push_cast
          rw [← zpow_natCast, ← zpow_add₀ (by norm_num)]
          simp
      _ ≤ _ := mul_le_mul_of_nonneg_right r_lo' hs.le
  · calc _ ≤ ((2 ^ (k + 1) : Int) : ℚ) * 2 ^ (Int.log 2 q - k) :=
          mul_le_mul_of_nonneg_right r_hi' hs.le
      _ = (2 : ℚ) ^ (Int.log 2 q + 1) := by
          push_cast
          rw [← zpow_natCast, ← zpow_add₀ (by norm_num)]
          congr 1
          push_cast
          ring

theorem roundNearestEven_mono_pos (p : Nat) (hp : 1 ≤ p) (q₁ q₂ : ℚ) (h₁ : 0 < q₁)
    (h : q₁ ≤ q₂) : roundNearestEven p q₁ ≤ roundNearestEven p q₂ := by
  have h₂ : 0 < q₂ := lt_of_lt_of_le h₁ h
  have hlog : Int.log 2 q₁ ≤ Int.log 2 q₂ := Int.log_mono_right h₁ h
  rcases hlog.eq_or_lt with heq | hlt
  · unfold roundNearestEven
    rw [if_neg h₁.ne', if_neg h₂.ne', abs_of_pos h₁, abs_of_pos h₂, heq]
    have hs := two_zpow_pos (Int.log 2 q₂ - (p - 1))
    apply mul_le_mul_of_nonneg_right _ hs.le
    have : q₁ / 2 ^ (Int.log 2 q₂ - (p - 1)) ≤ q₂ / 2 ^ (Int.log 2 q₂ - (p - 1)) :=
      div_le_div_of_nonneg_right h hs.le
    exact_mod_cast roundHalfEven_mono this
  · calc roundNearestEven p q₁ ≤ (2 : ℚ) ^ (Int.log 2 q₁ + 1) :=
          (roundNearestEven_pos_bounds p hp q₁ h₁).2
      _ ≤ (2 : ℚ) ^ Int.log 2 q₂ := zpow_le_zpow_right₀ (by norm_num) (by omega)
      _ ≤ roundNearestEven p q₂ := (roundNearestEven_pos_bounds p hp q₂ h₂).1

theorem roundNearestEven_nonneg (p : Nat) (hp : 1 ≤ p) (q : ℚ) (hq : 0 ≤ q) :
    0 ≤ roundNearestEven p q := by
  rcases hq.eq_or_lt with rfl | hpos
  · simp [roundNearestEven]
  · exact (two_zpow_pos _).le.trans (roundNearestEven_pos_bounds p hp q hpos).1

theorem roundNearestEven_mono (p : Nat) (hp : 1 ≤ p) : Monotone (roundNearestEven p) := by
  intro q₁ q₂ h
  rcases lt_or_le 0 q₁ with h₁ | h₁
  · exact roundNearestEven_mono_pos p hp q₁ q₂ h₁ h
  · rcases lt_or_le q₂ 0 with h₂ | h₂
    · have := roundNearestEven_mono_pos p hp (-q₂) (-q₁) (by linarith) (by linarith)
      rw [roundNearestEven_neg, roundNearestEven_neg] at this
      linarith
    · have a := roundNearestEven_nonneg p hp (-q₁) (by linarith)
      rw [roundNearestEven_neg] at a
      have b := roundNearestEven_nonneg p hp q₂ h₂
      linarith

theorem roundNearestEven_fix (p : Nat) (q : ℚ) (hq : Representable p q) :
    roundNearestEven p q = q := by
  obtain ⟨m, e, hm, rfl⟩ := hq
  by_cases hm0 : m = 0
  · simp [roundNearestEven, hm0]
  have hmq : (m : ℚ) ≠ 0 := by exact_mod_cast hm0
  have hq0 : (m : ℚ) * 2 ^ e ≠ 0 := mul_ne_zero hmq (two_zpow_pos e).ne'
  have habs : |(m : ℚ) * 2 ^ e| = |(m : ℚ)| * 2 ^ e := by
    rw [abs_mul, abs_of_pos (two_zpow_pos e)]
  have hpos : 0 < |(m : ℚ) * 2 ^ e| := abs_pos.2 hq0
  have hmlt : |(m : ℚ)| < 2 ^ (p : ℤ) := by
    rw [zpow_natCast]
    have : ((m.natAbs : ℕ) : ℚ) < ((2 ^ p : ℕ) : ℚ) := by exact_mod_cast hm
    rw [Nat.cast_natAbs, Int.cast_abs] at this
    simpa using this
  have hlt : Int.log 2 |(m : ℚ) * 2 ^ e| < p + e := by
    have h1 := (log_bounds _ hpos).1
    have h2 : |(m : ℚ) * 2 ^ e| < 2 ^ ((p : ℤ) + e) := by
      rw [habs, zpow_add₀ (by norm_num)]
      exact mul_lt_mul_of_pos_right hmlt (two_zpow_pos e)
    exact (zpow_lt_zpow_iff_right₀ (by norm_num : (1 : ℚ) < 2)).1 (lt_of_le_of_lt h1 h2)
  obtain ⟨k, hk⟩ : ∃ k : ℕ, e - (Int.log 2 |(m : ℚ) * 2 ^ e| - (p - 1)) = k :=
    ⟨(e - (Int.log 2 |(m : ℚ) * 2 ^ e| - (p - 1))).toNat, by omega⟩
  unfold roundNearestEven
  rw [if_neg hq0]
  set s := Int.log 2 |(m : ℚ) * 2 ^ e| - (p - 1) with hs
  have he : e = k + s := by omega
  have hdiv : (m : ℚ) * 2 ^ e / 2 ^ s = ((m * 2 ^ k : Int) : ℚ) := by
    rw [he, zpow_add₀ (by norm_num), zpow_natCast]
    push_cast
    field_simp
    ring
  rw [hdiv, roundHalfEven_intCast]
  rw [he, zpow_add₀ (by norm_num), zpow_natCast]
  push_cast
  ring

/-- IEEE 754 round-to-nearest-even is monotone and leaves representable numbers as they are. -/
theorem ieee_sound : ieee.Sound where
  centroid_mono := roundNearestEven_mono 24 (by norm_num)
  centroid_fix := roundNearestEven_fix 24
  float64_mono := roundNearestEven_mono 53 (by norm_num)
  float64_fix := roundNearestEven_fix 53

theorem roundHalfEven_error (x : ℚ) : |(roundHalfEven x : ℚ) - x| ≤ 1 / 2 := by
  rw [abs_sub_comm]
  rcases roundHalfEven_spec x with h | h
  · exact h.le
  · exact h.1.le

/-- Round to nearest has relative error at most `2^-p`. -/
theorem roundNearestEven_error (p : Nat) (hp : 1 ≤ p) (q : ℚ) :
    |roundNearestEven p q - q| ≤ |q| / 2 ^ p := by
  by_cases hq : q = 0
  · simp [roundNearestEven, hq]
  obtain ⟨k, rfl⟩ : ∃ k, p = k + 1 := ⟨p - 1, by omega⟩
  have hpos : 0 < |q| := abs_pos.2 hq
  have hlo := (log_bounds |q| hpos).1
  have hs := two_zpow_pos (Int.log 2 |q| - k)
  have hk : (0 : ℚ) < 2 ^ k := pow_pos (by norm_num) k
  have h2s : (2 : ℚ) ^ (Int.log 2 |q| - k) = 2 ^ Int.log 2 |q| / 2 ^ k := by
    rw [zpow_sub₀ (by norm_num), zpow_natCast]
  unfold roundNearestEven
  rw [if_neg hq]
  simp only [Nat.cast_add, Nat.cast_one, add_sub_cancel_right]
  have herr := roundHalfEven_error (q / 2 ^ (Int.log 2 |q| - k))
  have hfac : (roundHalfEven (q / 2 ^ (Int.log 2 |q| - k)) : ℚ) * 2 ^ (Int.log 2 |q| - k) - q =
      ((roundHalfEven (q / 2 ^ (Int.log 2 |q| - k)) : ℚ) - q / 2 ^ (Int.log 2 |q| - k)) *
        2 ^ (Int.log 2 |q| - k) := by
    field_simp
  rw [hfac, abs_mul, abs_of_pos hs]
  calc _ ≤ 1 / 2 * (2 : ℚ) ^ (Int.log 2 |q| - k) := mul_le_mul_of_nonneg_right herr hs.le
    _ = 2 ^ Int.log 2 |q| / 2 ^ (k + 1) := by rw [h2s, pow_succ]; field_simp; exact Or.inl (mul_comm _ _)
    _ ≤ |q| / 2 ^ (k + 1) := div_le_div_of_nonneg_right hlo (by positivity)

theorem ieee_nearest : ieee.Nearest where
  centroid_error := roundNearestEven_error 24 (by norm_num)
  float64_error := roundNearestEven_error 53 (by norm_num)

theorem log_eq (q : ℚ) (z : Int) (h1 : (2 : ℚ) ^ z ≤ q) (h2 : q < (2 : ℚ) ^ (z + 1)) :
    Int.log 2 q = z := by
  have hq : 0 < q := lt_of_lt_of_le (two_zpow_pos z) h1
  have a : z ≤ Int.log 2 q :=
    (@Int.zpow_le_iff_le_log ℚ _ _ 2 (by norm_num) z q hq).1 (by simpa using h1)
  have b : Int.log 2 q < z + 1 :=
    (@Int.lt_zpow_iff_log_lt ℚ _ _ 2 (by norm_num) (z + 1) q hq).1 (by simpa using h2)
  omega

/-- The value of `roundNearestEven` at a positive number, from its binade and the rounded
significand. -/
theorem roundNearestEven_eval (p : Nat) (q : ℚ) (z r : Int) (h1 : (2 : ℚ) ^ z ≤ q)
    (h2 : q < (2 : ℚ) ^ (z + 1)) (hr : IsNearestEven (q / (2 : ℚ) ^ (z - (p - 1))) r) :
    roundNearestEven p q = r * (2 : ℚ) ^ (z - (p - 1)) := by
  have hq : 0 < q := lt_of_lt_of_le (two_zpow_pos z) h1
  unfold roundNearestEven
  rw [if_neg hq.ne', abs_of_pos hq, log_eq q z h1 h2, roundHalfEven_eq _ r hr]

/-! ## The branches of `HandleFrame` -/

theorem HandleFrame_matErr {σ : Type} (P : PID σ) (R : Rounding) (e : exampleVideoHandler σ)
    (found : Option (ℚ × ℚ × ℚ)) (moveErr : Bool) :
    HandleFrame P R e ⟨true, found, moveErr⟩ = (e, []) := by
  simp [HandleFrame]

theorem HandleFrame_not_found {σ : Type} (P : PID σ) (R : Rounding) (e : exampleVideoHandler σ)
    (moveErr : Bool) :
    HandleFrame P R e ⟨false, none, moveErr⟩ = (e, [Event.IMShow none, Event.WaitKey]) := by
  simp [HandleFrame]

theorem HandleFrame_centred {σ : Type} (P : PID σ) (R : Rounding) (e : exampleVideoHandler σ)
    (x y radius : ℚ) (moveErr : Bool) (hX : errX R x = 0) (hY : errY R y = 0) :
    HandleFrame P R e ⟨false, some (x, y, radius), moveErr⟩ =
      (e, [Event.Circle (intOfFloat x) (intOfFloat y) (intOfFloat radius),
        Event.PrintlnErrors (errX R x) (errY R y),
        Event.IMShow (some (intOfFloat x, intOfFloat y, intOfFloat radius)), Event.WaitKey]) := by
  simp [HandleFrame, hX, hY]

theorem HandleFrame_off_centre {σ : Type} (P : PID σ) (R : Rounding) (e : exampleVideoHandler σ)
    (x y radius : ℚ) (moveErr : Bool) (h : ¬ (errX R x = 0 ∧ errY R y = 0)) :
    HandleFrame P R e ⟨false, some (x, y, radius), moveErr⟩ =
      ({ e with pidYaw := (P.Output e.pidYaw (errX R x)).2,
                pidPitch := (P.Output e.pidPitch (errY R y)).2 },
        [Event.Circle (intOfFloat x) (intOfFloat y) (intOfFloat radius),
          Event.PrintlnErrors (errX R x) (errY R y),
          Event.YawOutput (errX R x), Event.PitchOutput (errY R y),
          Event.PrintfOutputs (P.Output e.pidYaw (errX R x)).1 (P.Output e.pidPitch (errY R y)).1,
          Event.Move { X := (P.Output e.pidYaw (errX R x)).1,
                       Y := -(P.Output e.pidPitch (errY R y)).1 }] ++
        (if moveErr then [Event.PrintlnMoveError] else []) ++
        [Event.IMShow (some (intOfFloat x, intOfFloat y, intOfFloat radius)), Event.WaitKey]) := by
  have h' : |errX R x| > 0 ∨ |errY R y| > 0 := by
    by_contra hc
    push_neg at hc
    exact h ⟨abs_nonpos_iff.1 hc.1, abs_nonpos_iff.1 hc.2⟩
  simp only [HandleFrame, Bool.false_eq_true, if_false, if_pos h']

/-- The calls of a cycle that issues a command, sorted by collaborator. -/
theorem HandleFrame_off_centre_calls {σ : Type} (P : PID σ) (R : Rounding)
    (e : exampleVideoHandler σ) (x y radius : ℚ) (moveErr : Bool)
    (h : ¬ (errX R x = 0 ∧ errY R y = 0)) :
    moves (HandleFrame P R e ⟨false, some (x, y, radius), moveErr⟩).2 =
        [{ X := (P.Output e.pidYaw (errX R x)).1, Y := -(P.Output e.pidPitch (errY R y)).1 }] ∧
      yawCalls (HandleFrame P R e ⟨false, some (x, y, radius), moveErr⟩).2 = [errX R x] ∧
      pitchCalls (HandleFrame P R e ⟨false, some (x, y, radius), moveErr⟩).2 = [errY R y] ∧
      shown (HandleFrame P R e ⟨false, some (x, y, radius), moveErr⟩).2 =
        [some (intOfFloat x, intOfFloat y, intOfFloat radius)] := by
  rw [HandleFrame_off_centre P R e x y radius moveErr h]
  cases moveErr <;> simp [moves, yawCalls, pitchCalls, shown]

/-- A cycle that issues a command is one with an accepted frame, an object found, and an error
other than `(0, 0)`. -/
theorem moves_ne_nil {σ : Type} (P : PID σ) (R : Rounding) (e : exampleVideoHandler σ)
    (c : Cycle) (hc : moves (HandleFrame P R e c).2 ≠ []) :
    ∃ x y radius, c = ⟨false, some (x, y, radius), c.moveErr⟩ ∧
      ¬ (errX R x = 0 ∧ errY R y = 0) := by
  obtain ⟨matErr, found, moveErr⟩ := c
  cases matErr
  · cases found with
    | none => rw [HandleFrame_not_found] at hc; simp [moves] at hc
    | some t =>
      obtain ⟨x, y, radius⟩ := t
      by_cases h : errX R x = 0 ∧ errY R y = 0
      · rw [HandleFrame_centred P R e x y radius moveErr h.1 h.2] at hc
        simp [moves] at hc
      · exact ⟨x, y, radius, rfl, h⟩
  · rw [HandleFrame_matErr] at hc; simp [moves] at hc

/-- A cycle that issues no command calls neither controller and leaves the handler as it
was. -/
theorem moves_eq_nil {σ : Type} (P : PID σ) (R : Rounding) (e : exampleVideoHandler σ)
    (c : Cycle) (hc : moves (HandleFrame P R e c).2 = []) :
    yawCalls (HandleFrame P R e c).2 = [] ∧ pitchCalls (HandleFrame P R e c).2 = [] ∧
      (HandleFrame P R e c).1 = e := by
  obtain ⟨matErr, found, moveErr⟩ := c
  cases matErr
  · cases found with
    | none => rw [HandleFrame_not_found]; simp [yawCalls, pitchCalls]
    | some t =>
      obtain ⟨x, y, radius⟩ := t
      by_cases h : errX R x = 0 ∧ errY R y = 0
      · rw [HandleFrame_centred P R e x y radius moveErr h.1 h.2]
        simp [yawCalls, pitchCalls]
      · rw [(HandleFrame_off_centre_calls P R e x y radius moveErr h).1] at hc
        simp at hc
  · rw [HandleFrame_matErr]; simp [yawCalls, pitchCalls]

theorem moves_append (l₁ l₂ : List Event) : moves (l₁ ++ l₂) = moves l₁ ++ moves l₂ := by
  induction l₁ with
  | nil => rfl
  | cons a l ih => cases a <;> simp [moves, ih]

theorem run_nil {σ : Type} (P : PID σ) (R : Rounding) (e : exampleVideoHandler σ) :
    run P R e [] = (e, []) := rfl

theorem run_cons {σ : Type} (P : PID σ) (R : Rounding) (e : exampleVideoHandler σ) (c : Cycle)
    (cs : List Cycle) :
    run P R e (c :: cs) =
      ((run P R (HandleFrame P R e c).1 cs).1,
        (HandleFrame P R e c).2 ++ (run P R (HandleFrame P R e c).1 cs).2) := rfl

/-- A command among the calls of a cycle was assembled from the two controller outputs. -/
theorem moves_mem {σ : Type} (P : PID σ) (R : Rounding) (e : exampleVideoHandler σ)
    (c : Cycle) (cmd : StickPosition) (hcmd : cmd ∈ moves (HandleFrame P R e c).2) :
    ∃ x y radius, c.found = some (x, y, radius) ∧
      cmd.X = (P.Output e.pidYaw (errX R x)).1 ∧
      cmd.Y = -(P.Output e.pidPitch (errY R y)).1 := by
  obtain ⟨matErr, found, moveErr⟩ := c
  cases matErr
  · cases found with
    | none => rw [HandleFrame_not_found] at hcmd; simp [moves] at hcmd
    | some t =>
      obtain ⟨x, y, radius⟩ := t
      by_cases h : errX R x = 0 ∧ errY R y = 0
      · rw [HandleFrame_centred P R e x y radius moveErr h.1 h.2] at hcmd
        simp [moves] at hcmd
      · rw [HandleFrame_off_centre P R e x y radius moveErr h] at hcmd
        refine ⟨x, y, radius, rfl, ?_⟩
        cases moveErr <;> simp [moves] at hcmd <;> subst hcmd <;> exact ⟨rfl, rfl⟩
  · rw [HandleFrame_matErr] at hcmd; simp [moves] at hcmd

/-! ## C3, C4: the normalised error -/

theorem representable_int (p : Nat) (n : Int) (h : n.natAbs < 2 ^ p) : Representable p (n : ℚ) :=
  ⟨n, 0, h, by simp⟩

theorem representable_half : Representable 53 (1 / 2 : ℚ) :=
  ⟨1, -1, by norm_num, by norm_num⟩

theorem representable_neg_half : Representable 53 (-1 / 2 : ℚ) :=
  ⟨-1, -1, by norm_num, by norm_num⟩

theorem errX_eq (R : Rounding) (x : ℚ) : errX R x = R.float64 (R.centroid (x - 640) / 1280) := by
  norm_num [errX, HorizontalResolutionPoints]

theorem errY_eq (R : Rounding) (y : ℚ) : errY R y = R.float64 (R.centroid (360 - y) / 720) := by
  norm_num [errY, VerticalResolutionPoints]

theorem errX_centre (R : Rounding) (hR : R.Sound) : errX R 640 = 0 := by
  have h0c : R.centroid 0 = 0 :=
    hR.centroid_fix 0 (by simpa using representable_int 24 0 (by norm_num))
  have h0f : R.float64 0 = 0 :=
    hR.float64_fix 0 (by simpa using representable_int 53 0 (by norm_num))
  rw [errX_eq]
  norm_num [h0c, h0f]

theorem errY_centre (R : Rounding) (hR : R.Sound) : errY R 360 = 0 := by
  have h0c : R.centroid 0 = 0 :=
    hR.centroid_fix 0 (by simpa using representable_int 24 0 (by norm_num))
  have h0f : R.float64 0 = 0 :=
    hR.float64_fix 0 (by simpa using representable_int 53 0 (by norm_num))
  rw [errY_eq]
  norm_num [h0c, h0f]

theorem errX_corner (R : Rounding) (hR : R.Sound) : errX R 0 = -1 / 2 := by
  have h640 : R.centroid (-640) = -640 :=
    hR.centroid_fix _ (by simpa using representable_int 24 (-640) (by norm_num))
  have h := hR.float64_fix _ representable_neg_half
  rw [errX_eq]
  norm_num [h640]
  norm_num at h
  exact h

theorem errY_corner (R : Rounding) (hR : R.Sound) : errY R 0 = 1 / 2 := by
  have h360 : R.centroid 360 = 360 :=
    hR.centroid_fix _ (by simpa using representable_int 24 360 (by norm_num))
  have h := hR.float64_fix _ representable_half
  rw [errY_eq]
  norm_num [h360]
  norm_num at h
  exact h

/-- The errors `HandleFrame` computes are the ones it prints. -/
theorem PrintlnErrors_mem {σ : Type} (P : PID σ) (R : Rounding) (e : exampleVideoHandler σ)
    (x y radius : ℚ) (moveErr : Bool) :
    Event.PrintlnErrors (errX R x) (errY R y) ∈
      (HandleFrame P R e ⟨false, some (x, y, radius), moveErr⟩).2 := by
  by_cases h : errX R x = 0 ∧ errY R y = 0
  · rw [HandleFrame_centred P R e x y radius moveErr h.1 h.2]
    simp
  · rw [HandleFrame_off_centre P R e x y radius moveErr h]
    simp

/-- A difference rounded with 24 bits and then a quotient by `w` rounded with 53 bits is within
a relative error of `2^-23` of the exact quotient. -/
theorem quotient_accuracy (R : Rounding) (hN : R.Nearest) (d w : ℚ) (hw : 0 < w) :
    |R.float64 (R.centroid d / w) - d / w| ≤ |d / w| / 2 ^ 23 := by
  have h1 := hN.centroid_error d
  have h2 := hN.float64_error (R.centroid d / w)
  have hc : |R.centroid d| ≤ |d| + |d| / 2 ^ 24 := by
    have := abs_sub_abs_le_abs_sub (R.centroid d) d
    linarith
  have hdiv : |R.centroid d / w - d / w| = |R.centroid d - d| / w := by
    rw [← sub_div, abs_div, abs_of_pos hw]
  have hcw : |R.centroid d / w| = |R.centroid d| / w := by rw [abs_div, abs_of_pos hw]
  have hdw : |d / w| = |d| / w := by rw [abs_div, abs_of_pos hw]
  have htri := abs_sub_le (R.float64 (R.centroid d / w)) (R.centroid d / w) (d / w)
  rw [hcw] at h2
  rw [hdiv] at htri
  rw [hdw]
  have e1 : |R.centroid d - d| / w ≤ |d| / 2 ^ 24 / w := div_le_div_of_nonneg_right h1 hw.le
  have e2 : |R.centroid d| / w / 2 ^ 53 ≤ (|d| + |d| / 2 ^ 24) / w / 2 ^ 53 :=
    div_le_div_of_nonneg_right (div_le_div_of_nonneg_right hc hw.le) (by positivity)
  have hnn : 0 ≤ |d| / w := div_nonneg (abs_nonneg d) hw.le
  have e3 : (|d| + |d| / 2 ^ 24) / w / 2 ^ 53 + |d| / 2 ^ 24 / w ≤ |d| / w / 2 ^ 23 := by
    have : (|d| + |d| / 2 ^ 24) / w / 2 ^ 53 + |d| / 2 ^ 24 / w =
        |d| / w * ((1 + 1 / 2 ^ 24) / 2 ^ 53 + 1 / 2 ^ 24) := by
      field_simp
      ring
    rw [this, div_eq_mul_one_div (|d| / w) (2 ^ 23)]
    exact mul_le_mul_of_nonneg_left (by norm_num) hnn
  linarith

theorem errY_ieee_700 : errY ieee 700 = -4253399648072135 / 9007199254740992 := by
  have hc : roundNearestEven 24 (-340) = -340 :=
    roundNearestEven_fix 24 _ (by simpa using representable_int 24 (-340) (by norm_num))
  have hf : roundNearestEven 53 (17 / 36) = 8506799296144270 * (2 : ℚ) ^ ((-2 : ℤ) - ((53 : ℕ) - 1)) :=
    roundNearestEven_eval 53 (17 / 36) (-2) 8506799296144270 (by norm_num) (by norm_num)
      (Or.inl (by norm_num [abs_lt]))
  rw [errY_eq]
  show roundNearestEven 53 (roundNearestEven 24 (360 - 700) / 720) = _
  rw [show (360 : ℚ) - 700 = -340 by norm_num, hc,
    show (-340 : ℚ) / 720 = -(17 / 36) by norm_num, roundNearestEven_neg, hf]
  norm_num

/-- C3, as amended: with `W = 1280` and `H = 720`, the errors `HandleFrame` computes (and
prints) for the centroid `(x, y)` are the floating-point values of `(x - W/2) / W` and
`(H/2 - y) / H`, the difference rounded in the centroid's type and the quotient in `float64`.
Each is within a relative error of `2^-23` of the exact value of its formula, and is that exact
value whenever the difference and the quotient are representable; in particular the centre
`(640, 360)` gives `(0, 0)` and the corner `(0, 0)` gives `(-0.5, 0.5)`. -/
theorem HandleFrame_normalised_error {σ : Type} (P : PID σ) (R : Rounding) (hR : R.Sound)
    (hN : R.Nearest) (e : exampleVideoHandler σ) :
    (∀ x y radius moveErr,
      Event.PrintlnErrors (errX R x) (errY R y) ∈
        (HandleFrame P R e ⟨false, some (x, y, radius), moveErr⟩).2) ∧
    (∀ x, |errX R x - (x - 1280 / 2) / 1280| ≤ |(x - 1280 / 2) / 1280| / 2 ^ 23) ∧
    (∀ y, |errY R y - (720 / 2 - y) / 720| ≤ |(720 / 2 - y) / 720| / 2 ^ 23) ∧
    (∀ x, Representable 24 (x - 640) → Representable 53 ((x - 640) / 1280) →
      errX R x = (x - 1280 / 2) / 1280) ∧
    (∀ y, Representable 24 (360 - y) → Representable 53 ((360 - y) / 720) →
      errY R y = (720 / 2 - y) / 720) ∧
    (errX R 640, errY R 360) = (0, 0) ∧
    errX R 0 = -1 / 2 ∧ errY R 0 = 1 / 2 := by
  refine ⟨PrintlnErrors_mem P R e, ?_, ?_, ?_, ?_, ?_, errX_corner R hR, errY_corner R hR⟩
  · intro x
    rw [errX_eq, show (x - 1280 / 2 : ℚ) = x - 640 by norm_num]
    exact quotient_accuracy R hN (x - 640) 1280 (by norm_num)
  · intro y
    rw [errY_eq, show (720 / 2 - y : ℚ) = 360 - y by norm_num]
    exact quotient_accuracy R hN (360 - y) 720 (by norm_num)
  · intro x h1 h2
    rw [errX_eq, hR.centroid_fix _ h1, hR.float64_fix _ h2]
    norm_num
  · intro y h1 h2
    rw [errY_eq, hR.centroid_fix _ h1, hR.float64_fix _ h2]
    norm_num
  · rw [errX_centre R hR, errY_centre R hR]

/-- C3 fails as stated: for the in-frame centroid `(100, 700)` IEEE arithmetic gives
`errY = -4253399648072135 / 2^53`, which `HandleFrame` prints, and this is not
`(H/2 - y) / H = -17/36`. -/
theorem HandleFrame_normalised_error_inexact :
    Event.PrintlnErrors (errX ieee 100) (-4253399648072135 / 9007199254740992) ∈
      (HandleFrame specPID ieee defaultHandler ⟨false, some (100, 700, 20), false⟩).2 ∧
    errY ieee 700 = -4253399648072135 / 9007199254740992 ∧
    errY ieee 700 ≠ (720 / 2 - 700) / 720 := by
  refine ⟨?_, errY_ieee_700, ?_⟩
  · have h := PrintlnErrors_mem specPID ieee defaultHandler 100 700 20 false
    rw [errY_ieee_700] at h
    exact h
  · rw [errY_ieee_700]
    norm_num

/-- C4: for a centroid inside the frame, `0 <= x < 1280` and `0 <= y < 720`, both normalised
errors lie in `[-0.5, 0.5]`, whatever the rounding of the two operations does within the
limits of `Rounding.Sound`. -/
theorem errors_in_half_range (R : Rounding) (hR : R.Sound) (x y : ℚ)
    (hx0 : 0 ≤ x) (hx1 : x < 1280) (hy0 : 0 ≤ y) (hy1 : y < 720) :
    (-1 / 2 ≤ errX R x ∧ errX R x ≤ 1 / 2) ∧ (-1 / 2 ≤ errY R y ∧ errY R y ≤ 1 / 2) := by
  have fixc : ∀ n : Int, n.natAbs < 2 ^ 24 → R.centroid (n : ℚ) = n := fun n hn =>
    hR.centroid_fix _ (representable_int 24 n hn)
  have c640 : R.centroid 640 = 640 := by simpa using fixc 640 (by norm_num)
  have cm640 : R.centroid (-640) = -640 := by simpa using fixc (-640) (by norm_num)
  have c360 : R.centroid 360 = 360 := by simpa using fixc 360 (by norm_num)
  have cm360 : R.centroid (-360) = -360 := by simpa using fixc (-360) (by norm_num)
  have fh : R.float64 (1 / 2) = 1 / 2 := hR.float64_fix _ representable_half
  have fmh : R.float64 (-1 / 2) = -1 / 2 := hR.float64_fix _ representable_neg_half
  have bound : ∀ q : ℚ, -1 / 2 ≤ q → q ≤ 1 / 2 → -1 / 2 ≤ R.float64 q ∧ R.float64 q ≤ 1 / 2 :=
    fun q h1 h2 => ⟨fmh ▸ hR.float64_mono h1, fh ▸ hR.float64_mono h2⟩
  have hx_lo : -640 ≤ R.centroid (x - 640) := cm640 ▸ hR.centroid_mono (by linarith)
  have hx_hi : R.centroid (x - 640) ≤ 640 := c640 ▸ hR.centroid_mono (by linarith)
  have hy_lo : -360 ≤ R.centroid (360 - y) := cm360 ▸ hR.centroid_mono (by linarith)
  have hy_hi : R.centroid (360 - y) ≤ 360 := c360 ▸ hR.centroid_mono (by linarith)
  rw [errX_eq, errY_eq]
  exact ⟨bound _ (by linarith) (by linarith), bound _ (by linarith) (by linarith)⟩

/-! ## C5, C6: when a command is issued, and which -/

/-- C5: in one cycle `HandleFrame` calls `chassisModule.Move` at most once, and it calls it
exactly when the frame was accepted, the detector found an object, and the normalised error is
not exactly `(0, 0)`. -/
theorem HandleFrame_move_iff {σ : Type} (P : PID σ) (R : Rounding) (e : exampleVideoHandler σ)
    (c : Cycle) :
    (moves (HandleFrame P R e c).2).length ≤ 1 ∧
    ((moves (HandleFrame P R e c).2).length = 1 ↔
      c.matErr = false ∧ ∃ x y radius, c.found = some (x, y, radius) ∧
        ¬ (errX R x = 0 ∧ errY R y = 0)) := by
  obtain ⟨matErr, found, moveErr⟩ := c
  cases matErr
  · cases found with
    | none => rw [HandleFrame_not_found]; simp [moves]
    | some t =>
      obtain ⟨x, y, radius⟩ := t
      by_cases h : errX R x = 0 ∧ errY R y = 0
      · rw [HandleFrame_centred P R e x y radius moveErr h.1 h.2]
        simp [moves, h]
      · rw [HandleFrame_off_centre P R e x y radius moveErr h]
        have hlen : ∀ b : Bool, (moves ([Event.Circle (intOfFloat x) (intOfFloat y)
            (intOfFloat radius), Event.PrintlnErrors (errX R x) (errY R y),
            Event.YawOutput (errX R x), Event.PitchOutput (errY R y),
            Event.PrintfOutputs (P.Output e.pidYaw (errX R x)).1
              (P.Output e.pidPitch (errY R y)).1,
            Event.Move { X := (P.Output e.pidYaw (errX R x)).1,
                         Y := -(P.Output e.pidPitch (errY R y)).1 }] ++
            (if b then [Event.PrintlnMoveError] else []) ++
            [Event.IMShow (some (intOfFloat x, intOfFloat y, intOfFloat radius)),
              Event.WaitKey])).length = 1 := by
          intro b; cases b <;> simp [moves]
        exact ⟨(hlen moveErr).le, fun _ => ⟨rfl, x, y, radius, rfl, h⟩, fun _ => hlen moveErr⟩
  · rw [HandleFrame_matErr]; simp [moves]

/-- C6: every command `HandleFrame` issues is `(pidYaw.Output(errX), -pidPitch.Output(errY))`
for the centroid `(x, y)` it was given: X is the yaw controller's output, Y the negated pitch
controller's output, both controllers being in the state the handler held at the call. -/
theorem HandleFrame_command {σ : Type} (P : PID σ) (R : Rounding) (e : exampleVideoHandler σ)
    (c : Cycle) (cmd : StickPosition) (hcmd : cmd ∈ moves (HandleFrame P R e c).2) :
    ∃ x y radius, c.found = some (x, y, radius) ∧
      cmd.X = (P.Output e.pidYaw (errX R x)).1 ∧
      cmd.Y = -(P.Output e.pidPitch (errY R y)).1 :=
  moves_mem P R e c cmd hcmd

/-! ## C7: the commands stay within `[-1, 1]` -/

/-- One cycle keeps an invariant of the two controllers that `Output` keeps. -/
theorem HandleFrame_inv {σ : Type} (P : PID σ) (R : Rounding) (Inv : σ → Prop)
    (hout : ∀ s err, Inv s → Inv (P.Output s err).2)
    (e : exampleVideoHandler σ) (c : Cycle) (hy : Inv e.pidYaw) (hp : Inv e.pidPitch) :
    Inv (HandleFrame P R e c).1.pidYaw ∧ Inv (HandleFrame P R e c).1.pidPitch := by
  by_cases hc : moves (HandleFrame P R e c).2 = []
  · rw [(moves_eq_nil P R e c hc).2.2]
    exact ⟨hy, hp⟩
  · obtain ⟨x, y, radius, hceq, h⟩ := moves_ne_nil P R e c hc
    rw [hceq, HandleFrame_off_centre P R e x y radius c.moveErr h]
    exact ⟨hout _ _ hy, hout _ _ hp⟩

/-- C7: let the controllers built with bounds `min = -1`, `max = 1` return values clamped to
`[-1, 1]` (stated with an invariant `Inv` of the controller state that the constructor
establishes and `Output` keeps). Then for every handler `newExampleVideoHandler` builds and
every sequence of frames, every command issued has `-1 <= X <= 1` and `-1 <= Y <= 1`. -/
theorem run_commands_bounded {σ : Type} (P : PID σ) (R : Rounding) (Inv : σ → Prop)
    (hnew : ∀ kp ki kd, Inv (P.NewPIDController kp ki kd (-1) 1))
    (hout : ∀ s err, Inv s →
      Inv (P.Output s err).2 ∧ -1 ≤ (P.Output s err).1 ∧ (P.Output s err).1 ≤ 1)
    (hsvLower hsvUpper : String) (e : exampleVideoHandler σ)
    (he : newExampleVideoHandler P R hsvLower hsvUpper = .ok e)
    (cs : List Cycle) (cmd : StickPosition) (hcmd : cmd ∈ moves (run P R e cs).2) :
    (-1 ≤ cmd.X ∧ cmd.X ≤ 1) ∧ (-1 ≤ cmd.Y ∧ cmd.Y ≤ 1) := by
  have hinit : Inv e.pidYaw ∧ Inv e.pidPitch := by
    unfold newExampleVideoHandler at he
    split at he
    · cases he
    · split at he
      · cases he
      · cases he
        exact ⟨hnew _ _ _, hnew _ _ _⟩
  clear he
  induction cs generalizing e with
  | nil => simp [run_nil, moves] at hcmd
  | cons c cs ih =>
    rw [run_cons, moves_append, List.mem_append] at hcmd
    rcases hcmd with hcmd | hcmd
    · obtain ⟨x, y, radius, -, hX, hY⟩ := moves_mem P R e c cmd hcmd
      have h1 := hout e.pidYaw (errX R x) hinit.1
      have h2 := hout e.pidPitch (errY R y) hinit.2
      rw [hX, hY]
      exact ⟨⟨h1.2.1, h1.2.2⟩, ⟨by linarith [h2.2.2], by linarith [h2.2.1]⟩⟩
    · exact ih _ hcmd
        (HandleFrame_inv P R Inv (fun s err hs => (hout s err hs).1) e c hinit.1 hinit.2)

/-- The controller of the specification clamps to its bounds. -/
theorem specPID_clamped (s : PIDState) (err : ℚ) (hs : UnitBounds s) :
    UnitBounds (specPID.Output s err).2 ∧
      -1 ≤ (specPID.Output s err).1 ∧ (specPID.Output s err).1 ≤ 1 := by
  obtain ⟨hmin, hmax⟩ := hs
  refine ⟨⟨hmin, hmax⟩, ?_⟩
  simp only [specPID, hmin, hmax]
  split_ifs with h1 h2
  · norm_num
  · norm_num
  · exact ⟨by linarith, by linarith⟩

theorem newExampleVideoHandler_default :
    newExampleVideoHandler specPID ieee hsvLowerDefault hsvUpperDefault = .ok defaultHandler := by
  have hlo : parseHSVValues hsvLowerDefault = .ok (35, 219, 90) := by decide
  have hhi : parseHSVValues hsvUpperDefault = .ok (119, 255, 255) := by decide
  simp only [newExampleVideoHandler, hlo, hhi, defaultHandler]

theorem corner_off_centre : ¬ (errX ieee 0 = 0 ∧ errY ieee 0 = 0) := by
  rw [errX_corner ieee ieee_sound]
  norm_num

theorem cornerCommand_mem :
    cornerCommand ∈ moves (HandleFrame specPID ieee defaultHandler cornerCycle).2 := by
  have h := (HandleFrame_off_centre_calls specPID ieee defaultHandler 0 0 20 false
    corner_off_centre).1
  show cornerCommand ∈ moves (HandleFrame specPID ieee defaultHandler ⟨false, some (0, 0, 20), false⟩).2
  rw [h]
  exact List.mem_singleton.2 rfl

/-- In the corner cycle the default handler's command is as C6 says. -/
theorem HandleFrame_command_corner :
    ∃ x y radius, cornerCycle.found = some (x, y, radius) ∧
      cornerCommand.X = (specPID.Output defaultHandler.pidYaw (errX ieee x)).1 ∧
      cornerCommand.Y = -(specPID.Output defaultHandler.pidPitch (errY ieee y)).1 :=
  HandleFrame_command specPID ieee defaultHandler cornerCycle cornerCommand cornerCommand_mem

/-- The command of the corner cycle, issued by the default handler, is within `[-1, 1]`. -/
theorem run_commands_bounded_corner :
    (-1 ≤ cornerCommand.X ∧ cornerCommand.X ≤ 1) ∧
      (-1 ≤ cornerCommand.Y ∧ cornerCommand.Y ≤ 1) :=
  run_commands_bounded specPID ieee UnitBounds (fun _ _ _ => ⟨rfl, rfl⟩) specPID_clamped
    hsvLowerDefault hsvUpperDefault defaultHandler newExampleVideoHandler_default
    [cornerCycle] cornerCommand
    (by
      rw [run_cons, run_nil, moves_append]
      exact List.mem_append_left _ cornerCommand_mem)

/-- With IEEE arithmetic the corner `(0, 0)` gives the errors `(-0.5, 0.5)`, and the error of
`y = 700` is within `2^-23` of `-17/36`, relatively. -/
theorem HandleFrame_normalised_error_ieee :
    |errY ieee 700 - (720 / 2 - 700) / 720| ≤ |(720 / 2 - 700 : ℚ) / 720| / 2 ^ 23 ∧
      errX ieee 0 = -1 / 2 ∧ errY ieee 0 = 1 / 2 :=
  have h := HandleFrame_normalised_error specPID ieee ieee_sound ieee_nearest defaultHandler
  ⟨h.2.2.1 700, h.2.2.2.2.2.2⟩

/-- With IEEE arithmetic the centroid `(100, 700)` has both errors in `[-0.5, 0.5]`. -/
theorem errors_in_half_range_ieee :
    (-1 / 2 ≤ errX ieee 100 ∧ errX ieee 100 ≤ 1 / 2) ∧
      (-1 / 2 ≤ errY ieee 700 ∧ errY ieee 700 ≤ 1 / 2) :=
  errors_in_half_range ieee ieee_sound 100 700 (by norm_num) (by norm_num) (by norm_num)
    (by norm_num)

/-! ## C8: the colour range of a constructed handler -/

/-- C8 fails as stated: the flags `-hsvlower 200,0,0 -hsvupper 100,255,255` construct a handler,
and its lower hue bound 200 is above its upper hue bound 100. -/
theorem newExampleVideoHandler_unordered :
    ∃ e : exampleVideoHandler PIDState,
      newExampleVideoHandler specPID ieee "200,0,0" "100,255,255" = .ok e ∧
        ¬ (e.tracker.hl ≤ e.tracker.hu ∧ e.tracker.sl ≤ e.tracker.su ∧
          e.tracker.vl ≤ e.tracker.vu) := by
  have hlo : parseHSVValues "200,0,0" = .ok (200, 0, 0) := by decide
  have hhi : parseHSVValues "100,255,255" = .ok (100, 255, 255) := by decide
  refine ⟨{ tracker := { hl := 200, sl := 0, vl := 0, hu := 100, su := 255, vu := 255,
                          minRadius := 10 },
             pidPitch := specPID.NewPIDController (ieee.float64 (7 / 10)) 0 0 (-1) 1,
             pidYaw := specPID.NewPIDController (ieee.float64 (7 / 10)) 0 0 (-1) 1 }, ?_, ?_⟩
  · simp only [newExampleVideoHandler, hlo, hhi]
  · norm_num

/-- C8, as amended: a handler that `newExampleVideoHandler` constructs holds as its colour
range exactly the two triples parsed from the flag strings, the lower bound from `hsvlower` and
the upper bound from `hsvupper`, and the minimum radius 10; no order between the bounds is
checked. -/
theorem newExampleVideoHandler_range {σ : Type} (P : PID σ) (R : Rounding)
    (hsvLower hsvUpper : String) (e : exampleVideoHandler σ)
    (he : newExampleVideoHandler P R hsvLower hsvUpper = .ok e) :
    parseHSVValues hsvLower = .ok (e.tracker.hl, e.tracker.sl, e.tracker.vl) ∧
      parseHSVValues hsvUpper = .ok (e.tracker.hu, e.tracker.su, e.tracker.vu) ∧
      e.tracker.minRadius = 10 := by
  unfold newExampleVideoHandler at he
  split at he
  · cases he
  · rename_i hl sl vl hlo
    split at he
    · cases he
    · rename_i hu su vu hhi
      cases he
      exact ⟨hlo, hhi, rfl⟩

/-- The default flags construct a handler whose bounds are the parsed defaults, and these are
ordered: `35 <= 119`, `219 <= 255`, `90 <= 255`. -/
theorem newExampleVideoHandler_range_default :
    (parseHSVValues hsvLowerDefault =
        .ok (defaultHandler.tracker.hl, defaultHandler.tracker.sl, defaultHandler.tracker.vl) ∧
      parseHSVValues hsvUpperDefault =
        .ok (defaultHandler.tracker.hu, defaultHandler.tracker.su, defaultHandler.tracker.vu) ∧
      defaultHandler.tracker.minRadius = 10) ∧
    defaultHandler.tracker.hl ≤ defaultHandler.tracker.hu ∧
    defaultHandler.tracker.sl ≤ defaultHandler.tracker.su ∧
    defaultHandler.tracker.vl ≤ defaultHandler.tracker.vu :=
  ⟨newExampleVideoHandler_range specPID ieee hsvLowerDefault hsvUpperDefault defaultHandler
      newExampleVideoHandler_default,
    by norm_num [defaultHandler], by norm_num [defaultHandler], by norm_num [defaultHandler]⟩

/-! ## C9: a failed `Move` changes nothing but the log -/

/-- C9: take a cycle in which a command is issued, and compare the call in which `Move`
succeeds with the call in which it fails. Both call `Move` exactly once, with the same
command; both show exactly one frame, the same one; both run to the final `WaitKey`; the
failing call differs only by the one line printed after `Move`; and both leave the same
handler, so every later sequence of frames is processed alike. -/
theorem HandleFrame_move_error {σ : Type} (P : PID σ) (R : Rounding)
    (e : exampleVideoHandler σ) (c : Cycle) (hc : moves (HandleFrame P R e c).2 ≠ []) :
    (moves (HandleFrame P R e { c with moveErr := false }).2).length = 1 ∧
    moves (HandleFrame P R e { c with moveErr := true }).2 =
      moves (HandleFrame P R e { c with moveErr := false }).2 ∧
    (shown (HandleFrame P R e { c with moveErr := false }).2).length = 1 ∧
    shown (HandleFrame P R e { c with moveErr := true }).2 =
      shown (HandleFrame P R e { c with moveErr := false }).2 ∧
    (HandleFrame P R e { c with moveErr := false }).2.getLast? = some Event.WaitKey ∧
    (HandleFrame P R e { c with moveErr := true }).2.getLast? = some Event.WaitKey ∧
    (∃ pre post cmd,
      (HandleFrame P R e { c with moveErr := false }).2 = pre ++ Event.Move cmd :: post ∧
      (HandleFrame P R e { c with moveErr := true }).2 =
        pre ++ Event.Move cmd :: Event.PrintlnMoveError :: post) ∧
    (HandleFrame P R e { c with moveErr := true }).1 =
      (HandleFrame P R e { c with moveErr := false }).1 ∧
    ∀ cs, run P R (HandleFrame P R e { c with moveErr := true }).1 cs =
      run P R (HandleFrame P R e { c with moveErr := false }).1 cs := by
  obtain ⟨x, y, radius, hceq, h⟩ := moves_ne_nil P R e c hc
  have hok := HandleFrame_off_centre_calls P R e x y radius false h
  have hfail := HandleFrame_off_centre_calls P R e x y radius true h
  have eok := HandleFrame_off_centre P R e x y radius false h
  have efail := HandleFrame_off_centre P R e x y radius true h
  have c1 : ({ c with moveErr := false } : Cycle) = ⟨false, some (x, y, radius), false⟩ := by
    rw [hceq]
  have c2 : ({ c with moveErr := true } : Cycle) = ⟨false, some (x, y, radius), true⟩ := by
    rw [hceq]
  rw [c1, c2]
  refine ⟨by rw [hok.1]; rfl, by rw [hok.1, hfail.1], by rw [hok.2.2.2]; rfl,
    by rw [hok.2.2.2, hfail.2.2.2], by rw [eok]; simp, by rw [efail]; simp, ?_,
    by rw [eok, efail], fun cs => by rw [eok, efail]⟩
  rw [eok, efail]
  exact ⟨[Event.Circle (intOfFloat x) (intOfFloat y) (intOfFloat radius),
      Event.PrintlnErrors (errX R x) (errY R y), Event.YawOutput (errX R x),
      Event.PitchOutput (errY R y),
      Event.PrintfOutputs (P.Output e.pidYaw (errX R x)).1 (P.Output e.pidPitch (errY R y)).1],
    [Event.IMShow (some (intOfFloat x, intOfFloat y, intOfFloat radius)), Event.WaitKey],
    { X := (P.Output e.pidYaw (errX R x)).1, Y := -(P.Output e.pidPitch (errY R y)).1 },
    by simp, by simp⟩

/-- The corner cycle of the default handler issues a command; a failing `Move` changes only
the log. -/
theorem HandleFrame_move_error_corner :
    (moves (HandleFrame specPID ieee defaultHandler
      { cornerCycle with moveErr := false }).2).length = 1 ∧
    (HandleFrame specPID ieee defaultHandler { cornerCycle with moveErr := true }).1 =
      (HandleFrame specPID ieee defaultHandler { cornerCycle with moveErr := false }).1 :=
  have h := HandleFrame_move_error specPID ieee defaultHandler cornerCycle
    (List.ne_nil_of_mem cornerCommand_mem)
  ⟨h.1, h.2.2.2.2.2.2.2.1⟩

/-! ## C10: when the controllers are called -/

/-- C10: in one cycle each controller's `Output` is called at most once; in a cycle that
issues a command both are called, the yaw controller with `errX` and the pitch controller with
`errY`; in a cycle that issues none (frame rejected, no object found, or error exactly
`(0, 0)`) neither is called and the handler, with both controller states, is left as it
was. -/
theorem HandleFrame_pid_calls {σ : Type} (P : PID σ) (R : Rounding)
    (e : exampleVideoHandler σ) (c : Cycle) :
    (yawCalls (HandleFrame P R e c).2).length ≤ 1 ∧
    (pitchCalls (HandleFrame P R e c).2).length ≤ 1 ∧
    (moves (HandleFrame P R e c).2 ≠ [] →
      ∃ x y radius, c.found = some (x, y, radius) ∧
        yawCalls (HandleFrame P R e c).2 = [errX R x] ∧
        pitchCalls (HandleFrame P R e c).2 = [errY R y] ∧
        (HandleFrame P R e c).1.pidYaw = (P.Output e.pidYaw (errX R x)).2 ∧
        (HandleFrame P R e c).1.pidPitch = (P.Output e.pidPitch (errY R y)).2) ∧
    (moves (HandleFrame P R e c).2 = [] →
      yawCalls (HandleFrame P R e c).2 = [] ∧ pitchCalls (HandleFrame P R e c).2 = [] ∧
        (HandleFrame P R e c).1 = e) ∧
    ((c.matErr = true ∨ c.found = none ∨
        ∃ x y radius, c.found = some (x, y, radius) ∧ errX R x = 0 ∧ errY R y = 0) →
      moves (HandleFrame P R e c).2 = []) := by
  have hne : moves (HandleFrame P R e c).2 ≠ [] →
      ∃ x y radius, c.found = some (x, y, radius) ∧
        yawCalls (HandleFrame P R e c).2 = [errX R x] ∧
        pitchCalls (HandleFrame P R e c).2 = [errY R y] ∧
        (HandleFrame P R e c).1.pidYaw = (P.Output e.pidYaw (errX R x)).2 ∧
        (HandleFrame P R e c).1.pidPitch = (P.Output e.pidPitch (errY R y)).2 := by
    intro hc
    obtain ⟨x, y, radius, hceq, h⟩ := moves_ne_nil P R e c hc
    have hcalls := HandleFrame_off_centre_calls P R e x y radius c.moveErr h
    have hres := HandleFrame_off_centre P R e x y radius c.moveErr h
    rw [← hceq] at hcalls hres
    exact ⟨x, y, radius, by rw [hceq], hcalls.2.1, hcalls.2.2.1, by rw [hres], by rw [hres]⟩
  refine ⟨?_, ?_, hne, moves_eq_nil P R e c, ?_⟩
  · by_cases hc : moves (HandleFrame P R e c).2 = []
    · rw [(moves_eq_nil P R e c hc).1]; simp
    · obtain ⟨x, y, radius, -, hy, -⟩ := hne hc
      rw [hy]; simp
  · by_cases hc : moves (HandleFrame P R e c).2 = []
    · rw [(moves_eq_nil P R e c hc).2.1]; simp
    · obtain ⟨x, y, radius, -, -, hp, -⟩ := hne hc
      rw [hp]; simp
  · intro hcase
    by_contra hc
    obtain ⟨x, y, radius, hceq, h⟩ := moves_ne_nil P R e c hc
    rcases hcase with hm | hn | ⟨x', y', radius', hf, hX, hY⟩
    · rw [hceq] at hm; cases hm
    · rw [hceq] at hn; cases hn
    · rw [hceq] at hf
      simp only [Option.some.injEq, Prod.mk.injEq] at hf
      obtain ⟨rfl, rfl, rfl⟩ := hf
      exact h ⟨hX, hY⟩

end Tracker
